import Mathlib

/-!
# Verification of the PDF metadata updater and renamer

A shallow embedding of `pdf-metadata-updater-and-renamer.py` (class
`PDFRenamer`), together with proofs and refutations for the specification
claims about it.

Modelling conventions:
* Python strings are modelled as `String` / `List Char`.  The helpers below
  operate on `List Char` and are wrapped at the boundaries.
* `unicodedata.normalize('NFD', ·)` and the `category(ch) = 'Mn'` test are
  external collaborators (data-table driven); they are passed in as the
  oracle parameters `nfd : String → String` and `isMn : Char → Bool`.
  Nothing proved below depends on their behaviour.
* Python character predicates (`\s`, `\w`, `islower`, …) are modelled at
  their ASCII meaning.  Every string reaching the places where this matters
  has already been filtered to code points < 128 by `transliterate_to_latin`.
* `None`-able values are `Option`; a `Dict` that may be empty is a structure
  of `Option` fields plus a flag for unmodelled keys; Python truthiness of
  such a dict is the `truthy` predicate.
-/

/-- Python `\s` restricted to ASCII plus the two Latin-1 whitespace points
(`\x85`, `\xa0`); `re.sub(r'\s+', ' ', ·)` and `str.split()` use it. -/
def isPySpace (c : Char) : Bool :=
  c = ' ' || c = '\t' || c = '\n' || c = '\x0b' || c = '\x0c' || c = '\r' ||
  c = '\x1c' || c = '\x1d' || c = '\x1e' || c = '\x1f' ||
  c.toNat = 0x85 || c.toNat = 0xa0

/-- The character class `[<>"/\\|?*]` of `sanitize_filename` (line 172);
the colon is handled separately by the configured replacement. -/
def isFnameForbidden (c : Char) : Bool :=
  c = '<' || c = '>' || c = '"' || c = '/' || c = '\\' || c = '|' || c = '?' || c = '*'

/-- The control-character class `[\x00-\x1f\x7f-\x9f]` of `sanitize_filename`
(line 175). -/
def isCtrlChar (c : Char) : Bool :=
  c.toNat ≤ 0x1f || (0x7f ≤ c.toNat && c.toNat ≤ 0x9f)

/-- Python `\w` (word character) at its ASCII meaning, used for `\b`
word-boundary checks. -/
def isWordChar (c : Char) : Bool :=
  c.isAlphanum || c = '_'

/-- Drop the longest suffix whose characters satisfy `p`
(the core of Python `rstrip`). -/
def dropTrailWhile (p : Char → Bool) (l : List Char) : List Char :=
  (l.reverse.dropWhile p).reverse

/-- Python `str.strip()` (whitespace at both ends). -/
def pyStrip (l : List Char) : List Char :=
  dropTrailWhile isPySpace (l.dropWhile isPySpace)

/-- Python `str.strip(chars)` for an explicit character predicate. -/
def pyStripChars (p : Char → Bool) (l : List Char) : List Char :=
  dropTrailWhile p (l.dropWhile p)

/-- `re.sub(r'\s+', ' ', ·)`: each run of whitespace becomes one space. -/
def squeezeWs : List Char → List Char
  | [] => []
  | [c] => if isPySpace c then [' '] else [c]
  | c1 :: c2 :: rest =>
    if isPySpace c1 && isPySpace c2 then squeezeWs (c2 :: rest)
    else (if isPySpace c1 then ' ' else c1) :: squeezeWs (c2 :: rest)

/-- Worker for `replaceList`; `fuel` bounds the number of steps and is
always instantiated with the input length, which suffices because every
step consumes at least one character of the input. -/
def replaceListAux (pat rep : List Char) : Nat → List Char → List Char
  | _, [] => []
  | 0, l => l
  | fuel + 1, c :: rest =>
    if pat ≠ [] ∧ pat.isPrefixOf (c :: rest) then
      rep ++ replaceListAux pat rep fuel ((c :: rest).drop pat.length)
    else
      c :: replaceListAux pat rep fuel rest

/-- Python `str.replace(pat, rep)`: left-to-right, non-overlapping.
An empty pattern is returned unchanged (the script never uses one). -/
def replaceList (pat rep : List Char) (l : List Char) : List Char :=
  replaceListAux pat rep l.length l

/-- Supplementary transliteration table of `transliterate_to_latin`
(lines 131–151): characters NFD decomposition does not handle. -/
def pdfCharMap : List (String × String) :=
  [("ř", "r"), ("Ř", "R"), ("ď", "d"), ("Ď", "D"), ("ť", "t"), ("Ť", "T"),
   ("ň", "n"), ("Ň", "N"), ("ľ", "l"), ("Ľ", "L"),
   ("ł", "l"), ("Ł", "L"), ("ż", "z"), ("Ż", "Z"),
   ("ß", "ss"),
   ("ø", "o"), ("Ø", "O"), ("å", "a"), ("Å", "A"), ("æ", "ae"), ("Æ", "AE"),
   ("а", "a"), ("б", "b"), ("в", "v"), ("г", "g"), ("д", "d"), ("е", "e"),
   ("ж", "zh"), ("з", "z"), ("и", "i"), ("к", "k"), ("л", "l"), ("м", "m"),
   ("н", "n"), ("о", "o"), ("п", "p"), ("р", "r"), ("с", "s"), ("т", "t"),
   ("у", "u"), ("ф", "f"), ("х", "kh"), ("ц", "ts"), ("ч", "ch"), ("ш", "sh"),
   ("щ", "sch"), ("ы", "y"), ("э", "e"), ("ю", "yu"), ("я", "ya")]

/-- `transliterate_to_latin` (lines 118–161): NFD-decompose, drop combining
marks, apply the supplementary table, then drop every remaining non-ASCII
code point.  `nfd` and `isMn` are the `unicodedata` collaborators. -/
def transliterate_to_latin (nfd : String → String) (isMn : Char → Bool)
    (text : String) : String :=
  if text = "" then text
  else
    let noAccents := (nfd text).data.filter (fun c => !(isMn c))
    let mapped := pdfCharMap.foldl (fun acc p => replaceList p.1.data p.2.data acc) noAccents
    ⟨mapped.filter (fun c => c.toNat < 128)⟩

/-- The body of `sanitize_filename` (lines 163–179) before the final
empty-string check: transliterate, replace `:` by the configured
replacement, replace `[<>"/\\|?*]` by a space, delete control characters,
collapse whitespace runs, strip leading/trailing `.` and space. -/
def sanitize_core (nfd : String → String) (isMn : Char → Bool)
    (colonRepl : String) (filename : String) : List Char :=
  let t := (transliterate_to_latin nfd isMn filename).data
  let s1 := replaceList [':'] colonRepl.data t
  let s2 := s1.map (fun c => if isFnameForbidden c then ' ' else c)
  let s3 := s2.filter (fun c => !(isCtrlChar c))
  let s4 := squeezeWs s3
  pyStripChars (fun c => c = '.' || c = ' ') s4

/-- `sanitize_filename` (lines 163–182). -/
def sanitize_filename (nfd : String → String) (isMn : Char → Bool)
    (colonRepl : String) (filename : String) : String :=
  let s := sanitize_core nfd isMn colonRepl filename
  if s = [] then "UnknownFile" else ⟨s⟩

/-! ## Membership lemmas for the sanitizer stages -/

theorem mem_dropTrailWhile {p : Char → Bool} {l : List Char} {c : Char}
    (h : c ∈ dropTrailWhile p l) : c ∈ l := by
  unfold dropTrailWhile at h
  rw [List.mem_reverse] at h
  exact List.mem_reverse.mp ((List.dropWhile_sublist p).mem h)

theorem mem_pyStripChars {p : Char → Bool} {l : List Char} {c : Char}
    (h : c ∈ pyStripChars p l) : c ∈ l :=
  (List.dropWhile_sublist p).mem (mem_dropTrailWhile h)

theorem mem_squeezeWs {l : List Char} {c : Char}
    (h : c ∈ squeezeWs l) : c = ' ' ∨ c ∈ l := by
  induction l with
  | nil => simp [squeezeWs] at h
  | cons c1 tail ih =>
    match tail with
    | [] =>
      simp only [squeezeWs] at h
      split at h <;> simp_all
    | c2 :: rest =>
      simp only [squeezeWs] at h
      split at h
      · rcases ih h with h' | h' <;> simp_all
      · rcases List.mem_cons.mp h with h' | h'
        · split at h' <;> simp_all
        · rcases ih h' with h'' | h'' <;> simp_all

theorem mem_replaceListAux_single {x : Char} {rep : List Char} {c : Char} :
    ∀ {fuel : Nat} {l : List Char}, l.length ≤ fuel →
      c ∈ replaceListAux [x] rep fuel l → c ∈ rep ∨ (c ∈ l ∧ c ≠ x) := by
  intro fuel
  induction fuel with
  | zero =>
    intro l hf h
    have : l = [] := List.length_eq_zero.mp (Nat.le_zero.mp hf)
    subst this
    simp [replaceListAux] at h
  | succ fuel ih =>
    intro l hf h
    match l with
    | [] => simp [replaceListAux] at h
    | c1 :: rest =>
      rw [replaceListAux] at h
      split at h
      · next hcond =>
        have hx : c1 = x := by
          have := hcond.2
          simp [List.isPrefixOf] at this
          exact this.symm
        simp only [List.length_cons, List.drop_succ_cons, List.drop_zero] at h
        rcases List.mem_append.mp h with h' | h'
        · exact Or.inl h'
        · rcases ih (by simp only [List.length_cons, List.length_nil, List.drop_zero] at hf ⊢; omega) h' with h'' | h''
          · exact Or.inl h''
          · exact Or.inr ⟨List.mem_cons_of_mem _ h''.1, h''.2⟩
      · next hcond =>
        have hne : c1 ≠ x := by
          intro he
          exact hcond ⟨by simp, by simp [List.isPrefixOf, he]⟩
        rcases List.mem_cons.mp h with h' | h'
        · exact Or.inr ⟨by simp [h'], by rw [h']; exact hne⟩
        · rcases ih (by simp only [List.length_cons] at hf; omega) h' with h'' | h''
          · exact Or.inl h''
          · exact Or.inr ⟨List.mem_cons_of_mem _ h''.1, h''.2⟩

/-- Characters of `replaceList [x] rep l` come from `rep` or are
non-`x` characters of `l`. -/
theorem mem_replaceList_single {x : Char} {rep l : List Char} {c : Char}
    (h : c ∈ replaceList [x] rep l) : c ∈ rep ∨ (c ∈ l ∧ c ≠ x) :=
  mem_replaceListAux_single (Nat.le_refl _) h

/-- **C5.**  For every input string, under the default colon replacement
`" -"`, the output of `sanitize_filename` contains none of the characters
`<>:"/\\|?*` and no control character in `0x00`–`0x1F` or `0x7F`–`0x9F`;
and whenever the sanitized core is empty the function returns
`"UnknownFile"`. -/
theorem C5_sanitize_filename_safe (nfd : String → String) (isMn : Char → Bool)
    (s : String) :
    (∀ c ∈ (sanitize_filename nfd isMn " -" s).data,
        (¬ (c = '<' ∨ c = '>' ∨ c = ':' ∨ c = '"' ∨ c = '/' ∨ c = '\\' ∨
            c = '|' ∨ c = '?' ∨ c = '*')) ∧
        (¬ (c.toNat ≤ 0x1f ∨ (0x7f ≤ c.toNat ∧ c.toNat ≤ 0x9f)))) ∧
    (sanitize_core nfd isMn " -" s = [] →
      sanitize_filename nfd isMn " -" s = "UnknownFile") := by
  constructor
  · intro c hc
    unfold sanitize_filename at hc
    by_cases hemp : sanitize_core nfd isMn " -" s = []
    · rw [if_pos hemp] at hc
      revert hc
      revert c
      decide
    · rw [if_neg hemp] at hc
      have hcore : c ∈ sanitize_core nfd isMn " -" s := hc
      unfold sanitize_core at hcore
      have h4 := mem_pyStripChars hcore
      rcases mem_squeezeWs h4 with hsp | h3
      · subst hsp
        refine ⟨by decide, by decide⟩
      · rw [List.mem_filter] at h3
        obtain ⟨h2, hctrl⟩ := h3
        have hnc : ¬ (c.toNat ≤ 0x1f ∨ (0x7f ≤ c.toNat ∧ c.toNat ≤ 0x9f)) := by
          intro hco
          simp only [isCtrlChar, Bool.not_eq_true', Bool.or_eq_false_iff,
            Bool.and_eq_false_iff, decide_eq_false_iff_not] at hctrl
          omega
        rcases List.mem_map.mp h2 with ⟨d, hd1, hd2⟩
        by_cases hforb : isFnameForbidden d
        · rw [if_pos hforb] at hd2
          subst hd2
          exact ⟨by decide, hnc⟩
        · rw [if_neg hforb] at hd2
          subst hd2
          rcases mem_replaceList_single hd1 with hrep | ⟨_, hne⟩
          · -- character of the replacement string " -"
            refine ⟨?_, hnc⟩
            have : d = ' ' ∨ d = '-' := by
              simpa using hrep
            rcases this with h | h <;> subst h <;> decide
          · refine ⟨?_, hnc⟩
            intro hco
            simp only [isFnameForbidden, Bool.not_eq_true', Bool.or_eq_false_iff,
              decide_eq_false_iff_not] at hforb
            rcases hco with h | h | h | h | h | h | h | h | h <;> subst h <;> tauto
  · intro h
    unfold sanitize_filename
    rw [if_pos h]

/-- Witness for C5 at a concrete input: `"a.b:c"` sanitizes to a clean
string, and an input that strips to nothing yields `"UnknownFile"`. -/
theorem C5_sanitize_filename_safe_witness :
    sanitize_filename id (fun _ => false) " -" "..." = "UnknownFile" :=
  (C5_sanitize_filename_safe id (fun _ => false) "...").2 (by decide)

/-! ## Word splitting (Python `str.split()`) and joining -/

/-- Worker for `splitWs`; `acc` holds the current word reversed. -/
def splitWsAux : List Char → List Char → List (List Char)
  | [], acc => if acc = [] then [] else [acc.reverse]
  | c :: rest, acc =>
    if isPySpace c then
      (if acc = [] then splitWsAux rest [] else acc.reverse :: splitWsAux rest [])
    else splitWsAux rest (c :: acc)

/-- Python `str.split()` with no argument: split on whitespace runs,
discarding empty pieces. -/
def splitWs (l : List Char) : List (List Char) :=
  splitWsAux l []

/-- Python `' '.join(words)`. -/
def joinWords : List (List Char) → List Char
  | [] => []
  | [w] => w
  | w :: ws => w ++ ' ' :: joinWords ws

/-! ## `fix_caps` (lines 184–205) -/

/-- Python `str.isupper()` at ASCII: at least one letter, and no lowercase
letter. -/
def pyIsUpper (l : List Char) : Bool :=
  l.any (fun c => c.isAlpha) && l.all (fun c => !c.isAlpha || c.isUpper)

/-- Worker for `pyTitle`: the flag records whether the previous character
was a letter (cased). -/
def pyTitleAux : Bool → List Char → List Char
  | _, [] => []
  | prevAlpha, c :: rest =>
    (if c.isAlpha then (if prevAlpha then c.toLower else c.toUpper) else c) ::
      pyTitleAux c.isAlpha rest

/-- Python `str.title()` at ASCII: uppercase every letter that follows a
non-letter, lowercase the other letters. -/
def pyTitle (l : List Char) : List Char :=
  pyTitleAux false l

/-- `True` when `pre` (the character before the candidate match) admits a
`\b` word boundary. -/
def boundaryBefore (pre : Option Char) : Bool :=
  match pre with
  | none => true
  | some p => !isWordChar p

/-- `True` when the list following the candidate match admits a `\b`
word boundary. -/
def boundaryAfter (l : List Char) : Bool :=
  match l with
  | [] => true
  | c :: _ => !isWordChar c

/-- `re.sub(rf'\b{target}\b', rep, ·)` for a literal, non-empty `target`:
replace every word-boundary-delimited occurrence, scanning left to right.
`fuel` is instantiated with the input length (each step consumes at least
one character). -/
def replaceWordAll (target rep : List Char) : Nat → Option Char → List Char → List Char
  | 0, _, l => l
  | _ + 1, _, [] => []
  | fuel + 1, pre, c :: rest =>
    if (!target.isEmpty) && target.isPrefixOf (c :: rest) && boundaryBefore pre &&
        boundaryAfter ((c :: rest).drop target.length) then
      rep ++ replaceWordAll target rep fuel target.getLast? ((c :: rest).drop target.length)
    else
      c :: replaceWordAll target rep fuel (some c) rest

/-- The minor-word list of `fix_caps` (line 195). -/
def smallWords : List String :=
  ["of", "the", "and", "in", "on", "a", "an", "to", "for", "with", "at", "by", "from"]

/-- `fix_caps` (lines 184–205): title-case a fully-uppercase string,
re-lowercase the minor words, and re-capitalize the first character. -/
def fix_caps (s : String) : String :=
  if s = "" then s
  else if pyIsUpper s.data then
    let r := pyTitle s.data
    let r := smallWords.foldl
      (fun acc w => replaceWordAll (pyTitle w.data) w.data acc.length none acc) r
    let r := match r with
      | [] => []
      | c :: rest => if c.isLower then c.toUpper :: rest else c :: rest
    ⟨r⟩
  else s

/-! ## `clean_author_name` (lines 207–240) -/

/-- Honorific prefixes stripped by `clean_author_name` (line 216). -/
def authorPrefixes : List String :=
  ["Dr.", "Prof.", "Professor", "Mr.", "Ms.", "Mrs."]

/-- Honorific suffixes stripped by `clean_author_name` (line 217). -/
def authorSuffixes : List String :=
  ["Ph.D.", "PhD", "M.D.", "MD", "Jr.", "Sr.", "III", "II"]

/-- `clean_author_name` (lines 207–240): trim, fix caps, strip honorifics,
then return the text before the first comma (`Last, First`) or else the
last whitespace-delimited token. -/
def clean_author_name (name : String) : String :=
  if name = "" then "UnknownAuthor"
  else
    let cleaned := (fix_caps ⟨pyStrip name.data⟩).data
    let cleaned := authorPrefixes.foldl
      (fun acc p => if p.data.isPrefixOf acc then pyStrip (acc.drop p.data.length) else acc)
      cleaned
    let cleaned := authorSuffixes.foldl
      (fun acc suf =>
        if suf.data.isSuffixOf acc then pyStrip (acc.take (acc.length - suf.data.length))
        else acc)
      cleaned
    if ',' ∈ cleaned then ⟨pyStrip (cleaned.takeWhile (fun c => c ≠ ','))⟩
    else
      match (splitWs cleaned).getLast? with
      | none => "UnknownAuthor"
      | some w => ⟨w⟩

/-! ## Year extraction from free-text dates (lines 663–673) -/

/-- Does `re.search(r'\b(19|20)\d{2}\b', ·)` match starting at index `i`? -/
def yearCondAt (l : List Char) (i : Nat) : Bool :=
  (match l.drop i with
   | c1 :: c2 :: c3 :: c4 :: rest =>
     ((c1 = '1' && c2 = '9') || (c1 = '2' && c2 = '0')) && c3.isDigit && c4.isDigit &&
       boundaryAfter rest
   | _ => false) &&
  (match i with
   | 0 => true
   | j + 1 =>
     match l.get? j with
     | some p => !isWordChar p
     | none => true)

/-- The four matched characters at index `i`. -/
def yearSub (l : List Char) (i : Nat) : List Char :=
  (l.drop i).take 4

/-- Left-to-right scan for the first match of `\b(19|20)\d{2}\b`. -/
def searchYearAux (l : List Char) : Nat → Nat → Option String
  | 0, _ => none
  | fuel + 1, i =>
    if i ≥ l.length then none
    else if yearCondAt l i then some ⟨yearSub l i⟩
    else searchYearAux l fuel (i + 1)

/-- `re.search(r'\b(19|20)\d{2}\b', ·)`, returning the matched text. -/
def search_year_19_20 (l : List Char) : Option String :=
  searchYearAux l (l.length + 1) 0

/-- `extract_year_from_date_string` (lines 663–673): `None` for a falsy
input, else the first `\b(19|20)\d{2}\b` match. -/
def extract_year_from_date_string (s : String) : Option String :=
  if s = "" then none else search_year_19_20 s.data

/-- Does `re.search(r'D:(\d{4})', ·)` match starting at index `i`? -/
def dYearCondAt (l : List Char) (i : Nat) : Bool :=
  match l.drop i with
  | 'D' :: ':' :: d1 :: d2 :: d3 :: d4 :: _ =>
    d1.isDigit && d2.isDigit && d3.isDigit && d4.isDigit
  | _ => false

/-- The four digits of a `D:dddd` match at index `i` (regex group 1). -/
def dYearSub (l : List Char) (i : Nat) : List Char :=
  ((l.drop i).drop 2).take 4

/-- Left-to-right scan for `re.search(r'D:(\d{4})', ·)` (line 936). -/
def searchDYearAux (l : List Char) : Nat → Nat → Option String
  | 0, _ => none
  | fuel + 1, i =>
    if i ≥ l.length then none
    else if dYearCondAt l i then some ⟨dYearSub l i⟩
    else searchDYearAux l fuel (i + 1)

/-- `re.search(r'D:(\d{4})', ·)` returning group 1. -/
def search_d_year (l : List Char) : Option String :=
  searchDYearAux l (l.length + 1) 0

/-! ## `improved_title_extraction` (lines 675–701) -/

/-- Python `str.lower()` at ASCII. -/
def toLowerL (l : List Char) : List Char :=
  l.map Char.toLower

/-- `re.match(r'^[a-z]+-\d{4}-\d{6}', ·)` on the lowered title: a non-empty
run of lowercase letters, a dash, four digits, a dash, six digits. -/
def techIdMatch (l : List Char) : Bool :=
  let letters := l.takeWhile (fun c => c.isLower)
  if letters = [] then false
  else
    match l.drop letters.length with
    | '-' :: d1 :: d2 :: d3 :: d4 :: '-' :: e1 :: e2 :: e3 :: e4 :: e5 :: e6 :: _ =>
      d1.isDigit && d2.isDigit && d3.isDigit && d4.isDigit &&
      e1.isDigit && e2.isDigit && e3.isDigit && e4.isDigit && e5.isDigit && e6.isDigit
    | _ => false

/-- Scan for the first index where `needle` occurs in `hay`
(Python `str.find`). -/
def findSubAux (needle hay : List Char) : Nat → Nat → Option Nat
  | 0, _ => none
  | fuel + 1, i =>
    if i > hay.length then none
    else if needle.isPrefixOf (hay.drop i) then some i
    else findSubAux needle hay fuel (i + 1)

/-- Python `hay.find(needle)` as an `Option`. -/
def findSub (hay needle : List Char) : Option Nat :=
  findSubAux needle hay (hay.length + 1) 0

/-- The boilerplate phrases cut from titles (line 693). -/
def titlePhrases : List String :=
  ["Edited by", "Reviewed by", "Copyright", "doi", "DOI"]

/-- `improved_title_extraction` (lines 675–701). -/
def improved_title_extraction (raw : String) : String :=
  if raw = "" then "UnknownTitle"
  else if techIdMatch (toLowerL raw.data) then "UnknownTitle"
  else
    let t := (fix_caps ⟨pyStrip raw.data⟩).data
    let t :=
      if ("microsoft word - ".data).isPrefixOf (toLowerL t) then t.drop 17
      else if ("adobe pdf - ".data).isPrefixOf (toLowerL t) then t.drop 12
      else t
    let t := if (".pdf".data).isSuffixOf (toLowerL t) then t.take (t.length - 4) else t
    let t := titlePhrases.foldl
      (fun acc ph =>
        match findSub (toLowerL acc) (toLowerL ph.data) with
        | some i => if i > 0 then pyStrip (acc.take i) else acc
        | none => acc) t
    let t2 := pyStrip (squeezeWs t)
    if t2 = [] then "UnknownTitle" else ⟨t2⟩

/-! ## `create_filename` (lines 703–735) -/

/-- `str.rfind(' ', 0, e)`: index of the last space strictly before `e`. -/
def rfindSpaceAux : List Char → Nat → Option Nat → Option Nat
  | [], _, best => best
  | c :: rest, i, best => rfindSpaceAux rest (i + 1) (if c = ' ' then some i else best)

/-- `title_clean.rfind(' ', 0, e)` as an `Option`. -/
def rfindSpace (l : List Char) (e : Nat) : Option Nat :=
  rfindSpaceAux (l.take e) 0 none

/-- The short stop-words exempt from the final-word drop (line 729). -/
def titleStopWords : List String :=
  ["a", "an", "the", "of", "in", "on", "at", "to", "for"]

/-- The condition of line 729: the final word looks like a cut word
(longer than 2, ends in a lowercase letter, not a stop-word). -/
def badLastWord (w : List Char) : Bool :=
  w.length > 2 &&
  (match w.getLast? with
   | some c => c.isLower
   | none => false) &&
  !(titleStopWords.map String.data).contains w

/-- Lines 714–721: choose the cut position.  Python compares
`truncate_pos > maxLen * 0.7` in floating point; `0.7` converts to a float
slightly above 7/10, so for the default limit 70 the product is slightly
above 49 and the comparison agrees with the exact `p * 10 > maxLen * 7`
used here.  `rfind`'s `-1` is `none` and always hard-cuts. -/
def truncate_cut (maxLen : Nat) (tc : List Char) : List Char :=
  match rfindSpace tc maxLen with
  | some p => if p * 10 > maxLen * 7 then tc.take p else tc.take maxLen
  | none => tc.take maxLen

/-- The trailing-junk class `[,;:\-\s]` of line 726. -/
def truncJunkChar (c : Char) : Bool :=
  c = ',' || c = ';' || c = ':' || c = '-' || isPySpace c

/-- Lines 713–731: truncate an over-long cleaned title and drop a final
word that looks cut. -/
def truncate_title (maxLen : Nat) (tc : List Char) : List Char :=
  if tc.length > maxLen then
    let t1 := truncate_cut maxLen tc
    let t2 := dropTrailWhile truncJunkChar (dropTrailWhile isPySpace t1)
    let ws := splitWs t2
    match ws.getLast? with
    | some w => if badLastWord w then joinWords ws.dropLast else t2
    | none => t2
  else tc

/-- The punctuation stripped from the title before truncation (line 710). -/
def titleTrailPunct (c : Char) : Bool :=
  c = '.' || c = ',' || c = ';' || c = ':' || c = '!' || c = '?'

/-- The sanitized title with trailing punctuation stripped
(lines 707–710), the input of the truncation step. -/
def cleaned_title (nfd : String → String) (isMn : Char → Bool)
    (colonRepl : String) (title : String) : List Char :=
  dropTrailWhile titleTrailPunct (sanitize_filename nfd isMn colonRepl title).data

/-- The title segment of the built filename: sanitized title, trailing
punctuation stripped, then truncated (lines 705–731). -/
def title_segment (nfd : String → String) (isMn : Char → Bool)
    (colonRepl : String) (maxLen : Nat) (title : String) : List Char :=
  truncate_title maxLen (cleaned_title nfd isMn colonRepl title)

/-- `create_filename` (lines 703–735):
`f"{author_clean} - {year_clean} - {title_clean}.pdf"`. -/
def create_filename (nfd : String → String) (isMn : Char → Bool)
    (colonRepl : String) (maxLen : Nat) (author year title : String) : String :=
  let ac := (sanitize_filename nfd isMn colonRepl author).data
  let yc := (sanitize_filename nfd isMn colonRepl year).data
  ⟨ac ++ (" - ".data) ++ yc ++ (" - ".data) ++
    title_segment nfd isMn colonRepl maxLen title ++ (".pdf".data)⟩

/-! ## Structural lemmas about `splitWs` and `joinWords` -/

/-- Accumulator state after a pass of `splitWsAux` (words not yet emitted). -/
def swPending : List Char → List Char → List Char
  | [], acc => acc
  | c :: rest, acc =>
    if isPySpace c then swPending rest [] else swPending rest (c :: acc)

/-- Words emitted during a pass of `splitWsAux`, without the final flush. -/
def swEmitted : List Char → List Char → List (List Char)
  | [], _ => []
  | c :: rest, acc =>
    if isPySpace c then
      (if acc = [] then swEmitted rest [] else acc.reverse :: swEmitted rest [])
    else swEmitted rest (c :: acc)

theorem splitWsAux_eq_emitted_flush :
    ∀ (l : List Char) (acc : List Char),
      splitWsAux l acc =
        swEmitted l acc ++
          (if swPending l acc = [] then [] else [(swPending l acc).reverse]) := by
  intro l
  induction l with
  | nil =>
    intro acc
    simp only [splitWsAux, swEmitted, swPending, List.nil_append]
  | cons c rest ih =>
    intro acc
    simp only [splitWsAux, swEmitted, swPending]
    by_cases hs : isPySpace c
    · simp only [hs, if_true]
      by_cases ha : acc = []
      · simp only [ha, if_true]
        exact ih []
      · simp only [ha, if_false]
        rw [ih []]
        simp
    · simp only [hs, if_false]
      exact ih (c :: acc)

theorem splitWsAux_append :
    ∀ (a b acc : List Char),
      splitWsAux (a ++ b) acc = swEmitted a acc ++ splitWsAux b (swPending a acc) := by
  intro a
  induction a with
  | nil =>
    intro b acc
    simp [swEmitted, swPending]
  | cons c rest ih =>
    intro b acc
    simp only [List.cons_append, splitWsAux, swEmitted, swPending]
    by_cases hs : isPySpace c
    · simp only [hs, if_true]
      by_cases ha : acc = []
      · simp only [ha, if_true]
        rw [show rest.append b = rest ++ b from rfl]
        exact ih b []
      · simp only [ha, if_false]
        rw [show rest.append b = rest ++ b from rfl, ih b []]
        simp
    · simp only [hs, if_false]
      rw [show rest.append b = rest ++ b from rfl]
      exact ih b (c :: acc)

/-- Every non-final word of the split of a prefix is a word of the split of
the whole list. -/
theorem mem_dropLast_splitWs_take {l : List Char} {n : Nat} {w : List Char}
    (h : w ∈ (splitWs (l.take n)).dropLast) : w ∈ splitWs l := by
  have he : w ∈ swEmitted (l.take n) [] := by
    have h1 := splitWsAux_eq_emitted_flush (l.take n) []
    rw [splitWs, h1] at h
    by_cases hp : swPending (l.take n) [] = []
    · rw [if_pos hp, List.append_nil] at h
      exact (List.dropLast_sublist _).mem h
    · rw [if_neg hp] at h
      rw [List.dropLast_concat] at h
      exact h
  have h2 : splitWs l = swEmitted (l.take n) [] ++ splitWsAux (l.drop n) (swPending (l.take n) []) := by
    rw [splitWs, ← splitWsAux_append, List.take_append_drop]
  rw [h2]
  exact List.mem_append_left _ he

/-- Words produced by `splitWsAux` are non-empty and whitespace-free,
provided the accumulator is whitespace-free. -/
theorem splitWsAux_words_good :
    ∀ (l acc : List Char), (∀ c ∈ acc, isPySpace c = false) →
      ∀ w ∈ splitWsAux l acc, w ≠ [] ∧ ∀ c ∈ w, isPySpace c = false := by
  intro l
  induction l with
  | nil =>
    intro acc hacc w hw
    simp only [splitWsAux] at hw
    split at hw
    · simp at hw
    · next ha =>
      rw [List.mem_singleton] at hw
      subst hw
      exact ⟨by simpa using ha, fun c hc => hacc c (List.mem_reverse.mp hc)⟩
  | cons c rest ih =>
    intro acc hacc w hw
    simp only [splitWsAux] at hw
    by_cases hs : isPySpace c
    · rw [if_pos hs] at hw
      by_cases ha : acc = []
      · rw [if_pos ha] at hw
        exact ih [] (by simp) w hw
      · rw [if_neg ha] at hw
        rcases List.mem_cons.mp hw with h | h
        · subst h
          exact ⟨by simpa using ha, fun d hd => hacc d (List.mem_reverse.mp hd)⟩
        · exact ih [] (by simp) w h
    · rw [if_neg hs] at hw
      refine ih (c :: acc) ?_ w hw
      intro d hd
      rcases List.mem_cons.mp hd with h | h
      · subst h
        simpa using hs
      · exact hacc d h

/-- Words of `splitWs` are non-empty and whitespace-free. -/
theorem splitWs_words_good {l w : List Char} (h : w ∈ splitWs l) :
    w ≠ [] ∧ ∀ c ∈ w, isPySpace c = false :=
  splitWsAux_words_good l [] (by simp) w h

theorem splitWsAux_of_noSpace :
    ∀ (w acc rest : List Char), (∀ c ∈ w, isPySpace c = false) →
      splitWsAux (w ++ rest) acc = splitWsAux rest (w.reverse ++ acc) := by
  intro w
  induction w with
  | nil => intro acc rest _; simp
  | cons c cs ih =>
    intro acc rest hgood
    simp only [List.cons_append, splitWsAux]
    rw [if_neg (by simpa using hgood c (by simp))]
    rw [show cs.append rest = cs ++ rest from rfl]
    rw [ih (c :: acc) rest (fun d hd => hgood d (List.mem_cons_of_mem _ hd))]
    simp

/-- Splitting the joining of good words recovers the words. -/
theorem splitWs_joinWords :
    ∀ (ws : List (List Char)),
      (∀ w ∈ ws, w ≠ [] ∧ ∀ c ∈ w, isPySpace c = false) →
      splitWs (joinWords ws) = ws := by
  intro ws
  induction ws with
  | nil => intro _; simp [joinWords, splitWs, splitWsAux]
  | cons w rest ih =>
    intro hgood
    match rest with
    | [] =>
      have hw := hgood w (by simp)
      have h3 := splitWsAux_of_noSpace w [] [] hw.2
      rw [List.append_nil] at h3
      show splitWsAux w [] = [w]
      rw [h3]
      simp only [splitWsAux, List.append_nil]
      rw [if_neg (by simpa using hw.1)]
      simp
    | r :: rs =>
      have hw := hgood w (by simp)
      show splitWsAux (w ++ ' ' :: joinWords (r :: rs)) [] = w :: (r :: rs)
      rw [splitWsAux_of_noSpace w [] _ hw.2]
      simp only [splitWsAux, List.append_nil]
      rw [if_pos (by decide)]
      rw [if_neg (by simpa using hw.1)]
      simp only [List.reverse_reverse]
      rw [show splitWsAux (joinWords (r :: rs)) [] = splitWs (joinWords (r :: rs)) from rfl]
      rw [ih (fun v hv => hgood v (List.mem_cons_of_mem _ hv))]

/-! ## Length and prefix lemmas for the truncation step -/

theorem length_dropTrailWhile (p : Char → Bool) (l : List Char) :
    (dropTrailWhile p l).length ≤ l.length := by
  simp only [dropTrailWhile, List.length_reverse]
  calc (l.reverse.dropWhile p).length ≤ l.reverse.length :=
        (List.dropWhile_sublist p).length_le
    _ = l.length := List.length_reverse l

theorem dropTrailWhile_prefixOf (p : Char → Bool) (l : List Char) :
    dropTrailWhile p l <+: l := by
  have h := List.dropWhile_suffix (l := l.reverse) p
  have h2 : (l.reverse.dropWhile p).reverse <+: l.reverse.reverse := by
    rw [List.reverse_prefix]
    simpa using h
  simpa [dropTrailWhile] using h2

theorem dropTrailWhile_eq_take (p : Char → Bool) (l : List Char) :
    ∃ k, dropTrailWhile p l = l.take k :=
  ⟨(dropTrailWhile p l).length,
    List.prefix_iff_eq_take.mp (dropTrailWhile_prefixOf p l)⟩

theorem joinWords_cons_length_le (w : List Char) (ws : List (List Char)) :
    (joinWords (w :: ws)).length ≤ w.length + 1 + (joinWords ws).length := by
  match ws with
  | [] => simp [joinWords]
  | v :: vs => simp [joinWords]; omega

theorem joinWords_splitWsAux_length_le :
    ∀ (l acc : List Char), (joinWords (splitWsAux l acc)).length ≤ l.length + acc.length := by
  intro l
  induction l with
  | nil =>
    intro acc
    simp only [splitWsAux]
    split
    · simp [joinWords]
    · simp [joinWords]
  | cons c rest ih =>
    intro acc
    simp only [splitWsAux]
    by_cases hs : isPySpace c
    · rw [if_pos hs]
      by_cases ha : acc = []
      · rw [if_pos ha]
        have := ih []
        simp only [List.length_nil, Nat.add_zero] at this
        simp only [List.length_cons]
        omega
      · rw [if_neg ha]
        have h1 := joinWords_cons_length_le acc.reverse (splitWsAux rest [])
        have h2 := ih []
        simp only [List.length_reverse] at h1
        simp only [List.length_nil, Nat.add_zero] at h2
        simp only [List.length_cons]
        omega
    · rw [if_neg hs]
      have := ih (c :: acc)
      simp only [List.length_cons] at this ⊢
      omega

theorem joinWords_dropLast_length_le :
    ∀ ws : List (List Char), (joinWords ws.dropLast).length ≤ (joinWords ws).length := by
  intro ws
  induction ws with
  | nil => simp
  | cons w rest ih =>
    match rest with
    | [] => simp [joinWords]
    | v :: vs =>
      show (joinWords (w :: (v :: vs).dropLast)).length ≤ (joinWords (w :: v :: vs)).length
      cases hd : (v :: vs).dropLast with
      | nil =>
        simp [joinWords]
      | cons x xs =>
        rw [hd] at ih
        simp only [joinWords, List.length_append, List.length_cons]
        omega

/-! ## Characterization of `rfindSpace` -/

theorem rfindSpaceAux_none :
    ∀ (l : List Char) (i : Nat) (best : Option Nat),
      rfindSpaceAux l i best = none →
        best = none ∧ ∀ k, k < l.length → l[k]? ≠ some ' ' := by
  intro l
  induction l with
  | nil =>
    intro i best h
    refine ⟨by simpa [rfindSpaceAux] using h, ?_⟩
    intro k hk
    simp at hk
  | cons c rest ih =>
    intro i best h
    rw [rfindSpaceAux] at h
    obtain ⟨h1, h2⟩ := ih (i + 1) _ h
    have hc : ¬ c = ' ' := by
      intro hcc
      rw [if_pos hcc] at h1
      cases h1
    rw [if_neg hc] at h1
    refine ⟨h1, ?_⟩
    intro k hk
    match k with
    | 0 =>
      simp only [List.getElem?_cons_zero]
      intro hco
      exact hc (by injection hco)
    | k + 1 =>
      simp only [List.getElem?_cons_succ]
      exact h2 k (by simpa using hk)

theorem rfindSpaceAux_some :
    ∀ (l : List Char) (i : Nat) (best : Option Nat) (p : Nat),
      rfindSpaceAux l i best = some p →
        (∃ k, k < l.length ∧ l[k]? = some ' ' ∧ p = i + k ∧
          ∀ k', k < k' → k' < l.length → l[k']? ≠ some ' ') ∨
        (best = some p ∧ ∀ k, k < l.length → l[k]? ≠ some ' ') := by
  intro l
  induction l with
  | nil =>
    intro i best p h
    right
    refine ⟨by simpa [rfindSpaceAux] using h, ?_⟩
    intro k hk
    simp at hk
  | cons c rest ih =>
    intro i best p h
    rw [rfindSpaceAux] at h
    rcases ih (i + 1) _ p h with ⟨k, hk, hsp, hp, hmax⟩ | ⟨hbest, hnone⟩
    · left
      refine ⟨k + 1, by simpa using hk, by simpa using hsp, by omega, ?_⟩
      intro k' hk1 hk2
      match k' with
      | 0 => omega
      | k' + 1 =>
        simp only [List.getElem?_cons_succ]
        exact hmax k' (by omega) (by simpa using hk2)
    · by_cases hc : c = ' '
      · rw [if_pos hc] at hbest
        left
        refine ⟨0, by simp, by simp [hc], by injection hbest with hb; omega, ?_⟩
        intro k' hk1 hk2
        match k' with
        | 0 => omega
        | k' + 1 =>
          simp only [List.getElem?_cons_succ]
          exact hnone k' (by simpa using hk2)
      · rw [if_neg hc] at hbest
        right
        refine ⟨hbest, ?_⟩
        intro k hk
        match k with
        | 0 =>
          simp only [List.getElem?_cons_zero]
          intro hco
          exact hc (by injection hco)
        | k + 1 =>
          simp only [List.getElem?_cons_succ]
          exact hnone k (by simpa using hk)

theorem rfindSpace_some_spec {l : List Char} {e p : Nat}
    (h : rfindSpace l e = some p) :
    p < e ∧ p < l.length ∧ l[p]? = some ' ' ∧
      ∀ q, q < e → q < l.length → l[q]? = some ' ' → q ≤ p := by
  rw [rfindSpace] at h
  rcases rfindSpaceAux_some _ 0 none p h with ⟨k, hk, hsp, hp, hmax⟩ | ⟨hb, -⟩
  · have hp0 : p = k := by omega
    subst hp0
    rw [List.length_take] at hk
    have hpe : p < e := by omega
    have hpl : p < l.length := by omega
    rw [List.getElem?_take_of_lt hpe] at hsp
    refine ⟨hpe, hpl, hsp, ?_⟩
    intro q hq1 hq2 hq3
    by_contra hlt
    push_neg at hlt
    exact hmax q hlt (by rw [List.length_take]; omega)
      (by rwa [List.getElem?_take_of_lt hq1])
  · cases hb

theorem rfindSpace_none_spec {l : List Char} {e : Nat}
    (h : rfindSpace l e = none) :
    ∀ q, q < e → q < l.length → l[q]? ≠ some ' ' := by
  rw [rfindSpace] at h
  obtain ⟨-, h2⟩ := rfindSpaceAux_none _ 0 none h
  intro q hq1 hq2
  have h3 := h2 q (by rw [List.length_take]; omega)
  rwa [List.getElem?_take_of_lt hq1] at h3

theorem truncate_cut_length_le (maxLen : Nat) (tc : List Char) :
    (truncate_cut maxLen tc).length ≤ maxLen := by
  unfold truncate_cut
  cases h : rfindSpace tc maxLen with
  | none => simp [List.length_take]
  | some p =>
    have hs := rfindSpace_some_spec h
    show (if p * 10 > maxLen * 7 then List.take p tc else List.take maxLen tc).length ≤ maxLen
    by_cases hc : p * 10 > maxLen * 7
    · rw [if_pos hc]
      simp only [List.length_take]
      omega
    · rw [if_neg hc]
      simp [List.length_take]

theorem truncate_cut_eq_take (maxLen : Nat) (tc : List Char) :
    ∃ k, truncate_cut maxLen tc = tc.take k := by
  unfold truncate_cut
  cases h : rfindSpace tc maxLen with
  | none => exact ⟨maxLen, rfl⟩
  | some p =>
    by_cases hc : p * 10 > maxLen * 7
    · exact ⟨p, by show (if p * 10 > maxLen * 7 then List.take p tc else List.take maxLen tc) = _; rw [if_pos hc]⟩
    · exact ⟨maxLen, by show (if p * 10 > maxLen * 7 then List.take p tc else List.take maxLen tc) = _; rw [if_neg hc]⟩

theorem truncate_title_eq (maxLen : Nat) (tc : List Char) (h : tc.length > maxLen) :
    truncate_title maxLen tc =
      (match (splitWs (dropTrailWhile truncJunkChar
          (dropTrailWhile isPySpace (truncate_cut maxLen tc)))).getLast? with
       | some w =>
         if badLastWord w then
           joinWords (splitWs (dropTrailWhile truncJunkChar
             (dropTrailWhile isPySpace (truncate_cut maxLen tc)))).dropLast
         else dropTrailWhile truncJunkChar (dropTrailWhile isPySpace (truncate_cut maxLen tc))
       | none => dropTrailWhile truncJunkChar (dropTrailWhile isPySpace (truncate_cut maxLen tc))) := by
  unfold truncate_title
  rw [if_pos h]

theorem truncate_title_short (maxLen : Nat) (tc : List Char)
    (h : ¬ tc.length > maxLen) : truncate_title maxLen tc = tc := by
  unfold truncate_title
  rw [if_neg h]

/-- **C6.**  The title segment of the filename built by `create_filename`
never exceeds the configured maximum length; an over-long cleaned title is
cut at the last space strictly before the limit when that space lies beyond
70 % of the limit and hard-cut at the limit otherwise; and after
truncation the title never ends in a cut word: its final word is either not
of the dropped shape (longer than 2, ending in a lowercase letter, not a
short stop-word) or is a complete word of the cleaned title. -/
theorem C6_truncation (nfd : String → String) (isMn : Char → Bool)
    (colonRepl : String) (maxLen : Nat) (title : String) :
    (title_segment nfd isMn colonRepl maxLen title).length ≤ maxLen ∧
    ((cleaned_title nfd isMn colonRepl title).length > maxLen →
      ((∃ p, p < maxLen ∧ p < (cleaned_title nfd isMn colonRepl title).length ∧
          (cleaned_title nfd isMn colonRepl title)[p]? = some ' ' ∧
          (∀ q, q < maxLen → q < (cleaned_title nfd isMn colonRepl title).length →
            (cleaned_title nfd isMn colonRepl title)[q]? = some ' ' → q ≤ p) ∧
          truncate_cut maxLen (cleaned_title nfd isMn colonRepl title) =
            (if p * 10 > maxLen * 7
             then (cleaned_title nfd isMn colonRepl title).take p
             else (cleaned_title nfd isMn colonRepl title).take maxLen)) ∨
       ((∀ q, q < maxLen → q < (cleaned_title nfd isMn colonRepl title).length →
            (cleaned_title nfd isMn colonRepl title)[q]? ≠ some ' ') ∧
          truncate_cut maxLen (cleaned_title nfd isMn colonRepl title) =
            (cleaned_title nfd isMn colonRepl title).take maxLen))) ∧
    ((cleaned_title nfd isMn colonRepl title).length > maxLen →
      ∀ w, (splitWs (title_segment nfd isMn colonRepl maxLen title)).getLast? = some w →
        badLastWord w = false ∨ w ∈ splitWs (cleaned_title nfd isMn colonRepl title)) := by
  set tc := cleaned_title nfd isMn colonRepl title with htc
  have hseg : title_segment nfd isMn colonRepl maxLen title = truncate_title maxLen tc := rfl
  refine ⟨?_, ?_, ?_⟩
  · -- length bound
    by_cases hlen : tc.length > maxLen
    · rw [hseg, truncate_title_eq maxLen tc hlen]
      set t2 := dropTrailWhile truncJunkChar
        (dropTrailWhile isPySpace (truncate_cut maxLen tc)) with ht2
      have ht2len : t2.length ≤ maxLen := by
        calc t2.length
            ≤ (dropTrailWhile isPySpace (truncate_cut maxLen tc)).length :=
              length_dropTrailWhile _ _
          _ ≤ (truncate_cut maxLen tc).length := length_dropTrailWhile _ _
          _ ≤ maxLen := truncate_cut_length_le _ _
      cases hws : (splitWs t2).getLast? with
      | none => exact ht2len
      | some v =>
        by_cases hbad : badLastWord v
        · have h1 : (joinWords (splitWs t2).dropLast).length ≤
              (joinWords (splitWs t2)).length := joinWords_dropLast_length_le _
          have h2 : (joinWords (splitWs t2)).length ≤ t2.length := by
            simpa using joinWords_splitWsAux_length_le t2 []
          show (if badLastWord v then joinWords (splitWs t2).dropLast else t2).length ≤ maxLen
          rw [if_pos hbad]
          omega
        · show (if badLastWord v then joinWords (splitWs t2).dropLast else t2).length ≤ maxLen
          rw [if_neg hbad]
          exact ht2len
    · rw [hseg, truncate_title_short maxLen tc hlen]
      omega
  · -- cut-position characterization
    intro _
    cases h : rfindSpace tc maxLen with
    | some p =>
      obtain ⟨hpe, hpl, hsp, hmax⟩ := rfindSpace_some_spec h
      left
      refine ⟨p, hpe, hpl, hsp, hmax, ?_⟩
      unfold truncate_cut
      rw [h]
    | none =>
      right
      refine ⟨rfindSpace_none_spec h, ?_⟩
      unfold truncate_cut
      rw [h]
  · -- no cut word left behind
    intro hlen w hw
    rw [hseg, truncate_title_eq maxLen tc hlen] at hw
    set t2 := dropTrailWhile truncJunkChar
      (dropTrailWhile isPySpace (truncate_cut maxLen tc)) with ht2
    have htake : ∃ m, t2 = tc.take m := by
      obtain ⟨k1, hk1⟩ := truncate_cut_eq_take maxLen tc
      obtain ⟨k2, hk2⟩ := dropTrailWhile_eq_take isPySpace (truncate_cut maxLen tc)
      obtain ⟨k3, hk3⟩ :=
        dropTrailWhile_eq_take truncJunkChar (dropTrailWhile isPySpace (truncate_cut maxLen tc))
      refine ⟨min (min k3 k2) k1, ?_⟩
      rw [ht2, hk3, hk2, hk1, List.take_take, List.take_take]
    cases hws : (splitWs t2).getLast? with
    | none =>
      rw [hws] at hw
      change (splitWs t2).getLast? = some w at hw
      rw [hws] at hw
      cases hw
    | some v =>
      rw [hws] at hw
      change (splitWs (if badLastWord v then joinWords (splitWs t2).dropLast else t2)).getLast?
        = some w at hw
      by_cases hbad : badLastWord v
      · rw [if_pos hbad] at hw
        have hgood : ∀ u ∈ (splitWs t2).dropLast, u ≠ [] ∧ ∀ c ∈ u, isPySpace c = false :=
          fun u hu => splitWs_words_good ((List.dropLast_sublist _).mem hu)
        rw [splitWs_joinWords _ hgood] at hw
        right
        obtain ⟨m, hm⟩ := htake
        have hwmem : w ∈ (splitWs t2).dropLast := List.mem_of_getLast?_eq_some hw
        rw [hm] at hwmem
        exact mem_dropLast_splitWs_take hwmem
      · rw [if_neg hbad] at hw
        rw [hws] at hw
        injection hw with hvw
        left
        rw [← hvw]
        simpa using hbad

/-- Witness for C6 at a concrete input (limit 5, title `"abc def ghi"`):
the segment is `"abc d"` and its last word is the complete stop-short word
`"d"`. -/
theorem C6_truncation_witness :
    (title_segment id (fun _ => false) " -" 5 "abc def ghi").length ≤ 5 ∧
    (badLastWord ['d'] = false ∨
      ['d'] ∈ splitWs (cleaned_title id (fun _ => false) " -" "abc def ghi")) :=
  ⟨(C6_truncation id (fun _ => false) " -" 5 "abc def ghi").1,
   (C6_truncation id (fun _ => false) " -" 5 "abc def ghi").2.2 (by decide) ['d'] (by decide)⟩

/-! ## Source-specific author extraction (lines 597–647) -/

/-- One entry of a CrossRef `author` list: the `family`/`given` fields with
their `.get(·, "")` defaults. -/
structure CrossrefAuthor where
  family : String := ""
  given : String := ""
deriving DecidableEq

/-- `extract_author_from_crossref` (lines 597–609). -/
def extract_author_from_crossref (authors : List CrossrefAuthor) : String :=
  match authors with
  | [] => "UnknownAuthor"
  | a :: _ =>
    if a.family ≠ "" then a.family
    else if a.given ≠ "" then a.given
    else "UnknownAuthor"

/-- `extract_author_from_semantic_scholar` (lines 611–625); the argument
carries each entry's `.get("name", "")` (for a dict entry) or `str(·)`. -/
def extract_author_from_semantic_scholar (names : List String) : String :=
  match names with
  | [] => "UnknownAuthor"
  | n :: _ => if n ≠ "" then clean_author_name n else "UnknownAuthor"

/-- `extract_author_from_arxiv` (lines 627–636). -/
def extract_author_from_arxiv (authors : List String) : String :=
  match authors with
  | [] => "UnknownAuthor"
  | a :: _ => if a ≠ "" then clean_author_name a else "UnknownAuthor"

/-- `extract_author_from_openlibrary` (lines 638–647); the argument carries
each entry's `.get("name", "")`. -/
def extract_author_from_openlibrary (authors : List String) : String :=
  match authors with
  | [] => "UnknownAuthor"
  | a :: _ => if a ≠ "" then clean_author_name a else "UnknownAuthor"

/-! ## The enriched record and the field reconciliation of
`process_single_pdf` (lines 890–948) -/

/-- The value under an `authors` key: a list of dicts (Semantic Scholar,
carried as the `name` fields) or a list of strings (arXiv).  The code
dispatches on `isinstance(enriched_data['authors'][0], dict)`. -/
inductive AuthorsVal where
  | dictList (names : List String)
  | strList (names : List String)
deriving DecidableEq

/-- The value under a `title` key: a string or a list of strings. -/
inductive TitleVal where
  | str (s : String)
  | list (l : List String)
deriving DecidableEq

/-- The enriched record (`enriched_data`): the keys the reconciler probes,
each `Option` (absent = key not in the dict), plus `otherKeys` recording
whether the dict holds any further keys (so that Python truthiness of the
dict is `truthy` below).  CrossRef date fields carry their
`.get('date-parts', [])` value. -/
structure Enriched where
  author : Option (List CrossrefAuthor) := none
  authors : Option AuthorsVal := none
  title : Option TitleVal := none
  publishedPrint : Option (List (List Int)) := none
  publishedOnline : Option (List (List Int)) := none
  created : Option (List (List Int)) := none
  deposited : Option (List (List Int)) := none
  year : Option Int := none
  published : Option String := none
  publish_date : Option String := none
  otherKeys : Bool := false
deriving DecidableEq

/-- Python truthiness of the `enriched_data` dict: non-empty. -/
def Enriched.truthy (e : Enriched) : Bool :=
  e.author.isSome || e.authors.isSome || e.title.isSome ||
  e.publishedPrint.isSome || e.publishedOnline.isSome ||
  e.created.isSome || e.deposited.isSome ||
  e.year.isSome || e.published.isSome || e.publish_date.isSome || e.otherKeys

/-- One iteration of the `extract_year_from_crossref` field loop
(lines 653–659): `date_parts and date_parts[0] and date_parts[0][0]`
(all truthy, so the leading entry non-zero) and `1000 <= year <= 9999`. -/
def crossref_year_of_field (parts : List (List Int)) : Option String :=
  match parts with
  | (y :: _) :: _ =>
    if y ≠ 0 ∧ 1000 ≤ y ∧ y ≤ 9999 then some (toString y) else none
  | _ => none

/-- `extract_year_from_crossref` (lines 649–661): probe
`published-print`, `published-online`, `created`, `deposited` in order;
a present field with an unusable value falls through to the next. -/
def extract_year_from_crossref (e : Enriched) : Option String :=
  (e.publishedPrint.bind crossref_year_of_field).orElse fun _ =>
    (e.publishedOnline.bind crossref_year_of_field).orElse fun _ =>
      (e.created.bind crossref_year_of_field).orElse fun _ =>
        e.deposited.bind crossref_year_of_field

/-- Lines 895–905: final author.  Inside a truthy record, an `author` key
is read as CrossRef shape; else an `authors` key dispatches on the first
entry being a dict; the raw `/Author` is consulted only when the record is
empty (falsy). -/
def resolve_author (e : Enriched) (rawAuthor : Option String) : String :=
  if e.truthy then
    match e.author with
    | some l => extract_author_from_crossref l
    | none =>
      match e.authors with
      | some (.dictList (n :: ns)) => extract_author_from_semantic_scholar (n :: ns)
      | some (.dictList []) => extract_author_from_arxiv []
      | some (.strList l) => extract_author_from_arxiv l
      | none => "UnknownAuthor"
  else
    match rawAuthor with
    | some ra => if ra ≠ "" then clean_author_name ra else "UnknownAuthor"
    | none => "UnknownAuthor"

/-- Lines 907–922: final title.  A `title` key in the (necessarily truthy)
record wins; else the raw `/Title`; else the heuristic page-1 title. -/
def resolve_title (e : Enriched) (rawTitle idsTitle : Option String) : String :=
  match e.title with
  | some (.str s) => improved_title_extraction s
  | some (.list []) => improved_title_extraction "UnknownTitle"
  | some (.list (t :: _)) => improved_title_extraction t
  | none =>
    match rawTitle with
    | some rt =>
      if rt ≠ "" then improved_title_extraction rt
      else
        match idsTitle with
        | some it => if it ≠ "" then improved_title_extraction it else "UnknownTitle"
        | none => "UnknownTitle"
    | none =>
      match idsTitle with
      | some it => if it ≠ "" then improved_title_extraction it else "UnknownTitle"
      | none => "UnknownTitle"

/-- Lines 924–942: final year.  Inside a truthy record: CrossRef
date-parts, else a literal `year`, else free-text `published`, else
`publish_date`; the raw `/CreationDate`-or-`/ModDate` is consulted only
when the record is empty, parsed as `D:YYYY` when it starts with `D:` and
as a bare `(19|20)\d{2}` year otherwise. -/
def resolve_year (e : Enriched) (rawDate : Option String) : String :=
  if e.truthy then
    if e.publishedPrint.isSome || e.publishedOnline.isSome then
      (extract_year_from_crossref e).getD "UnknownYear"
    else
      match e.year with
      | some y => toString y
      | none =>
        match e.published with
        | some p => (extract_year_from_date_string p).getD "UnknownYear"
        | none =>
          match e.publish_date with
          | some pd => (extract_year_from_date_string pd).getD "UnknownYear"
          | none => "UnknownYear"
  else
    match rawDate with
    | some d =>
      if d = "" then "UnknownYear"
      else if ("D:".data).isPrefixOf d.data then (search_d_year d.data).getD "UnknownYear"
      else (search_year_19_20 d.data).getD "UnknownYear"
    | none => "UnknownYear"

/-! ## C8: raw-metadata fallback -/

/-- **C8 counterexample.**  An enriched record holding only a title (as the
Semantic Scholar DOI lookup returns) has no usable author and no usable
year, yet the raw `/Author` (usable: it cleans to `"Smith"`) and the raw
`D:`-encoded `/CreationDate` are ignored: both fields take their
sentinels, refuting the claim that raw PDF metadata is used as a per-field
fallback. -/
theorem C8_counterexample :
    resolve_author { title := some (TitleVal.str "Deep Learning") } (some "John Smith") =
      "UnknownAuthor" ∧
    clean_author_name "John Smith" = "Smith" ∧
    resolve_year { title := some (TitleVal.str "Deep Learning") } (some "D:2015") =
      "UnknownYear" ∧
    search_d_year "D:2015".data = some "2015" := by
  refine ⟨by decide, by decide, by decide, by decide⟩

/-- **C8 (amended).**  Raw PDF metadata is a fallback for author and year
only when enrichment produced an entirely empty record; the title falls
back to raw `/Title` and then the page-1 heuristic title whenever the
enriched record has no title key; a non-empty record without author
(resp. year) information yields the sentinel without consulting raw
metadata.  The raw date parses as `D:YYYY` or as a bare `(19|20)xx`
year. -/
theorem C8_fallback_amended (e : Enriched) (rawA rawT rawD idsT : Option String) :
    (e.truthy = false →
      resolve_author e rawA =
        (match rawA with
         | some ra => if ra ≠ "" then clean_author_name ra else "UnknownAuthor"
         | none => "UnknownAuthor") ∧
      resolve_year e rawD =
        (match rawD with
         | some d =>
           if d = "" then "UnknownYear"
           else if ("D:".data).isPrefixOf d.data then (search_d_year d.data).getD "UnknownYear"
           else (search_year_19_20 d.data).getD "UnknownYear"
         | none => "UnknownYear")) ∧
    (e.title = none →
      resolve_title e rawT idsT =
        (match rawT with
         | some rt =>
           if rt ≠ "" then improved_title_extraction rt
           else
             match idsT with
             | some it => if it ≠ "" then improved_title_extraction it else "UnknownTitle"
             | none => "UnknownTitle"
         | none =>
           match idsT with
           | some it => if it ≠ "" then improved_title_extraction it else "UnknownTitle"
           | none => "UnknownTitle")) ∧
    (e.truthy = true → e.author = none → e.authors = none →
      resolve_author e rawA = "UnknownAuthor") ∧
    (e.truthy = true → e.publishedPrint = none → e.publishedOnline = none →
      e.year = none → e.published = none → e.publish_date = none →
      resolve_year e rawD = "UnknownYear") := by
  refine ⟨?_, ?_, ?_, ?_⟩
  · intro h
    constructor
    · simp [resolve_author, h]
    · simp [resolve_year, h]
  · intro h
    simp [resolve_title, h]
  · intro ht ha hau
    simp [resolve_author, ht, ha, hau]
  · intro ht h1 h2 h3 h4 h5
    simp [resolve_year, ht, h1, h2, h3, h4, h5]

/-- Witness for C8 (amended): a record holding only a title yields the
author sentinel. -/
theorem C8_fallback_amended_witness :
    resolve_author { title := some (TitleVal.str "T") } (some "John Smith") = "UnknownAuthor" :=
  (C8_fallback_amended { title := some (TitleVal.str "T") } (some "John Smith")
    none none none).2.2.1 (by decide) rfl rfl

/-! ## C9: year extraction from free-text date strings -/

theorem yearCondAt_of_le {l : List Char} {j : Nat} (h : l.length ≤ j) :
    yearCondAt l j = false := by
  have hd : l.drop j = [] := List.drop_eq_nil_of_le h
  simp [yearCondAt, hd]

theorem searchYearAux_spec :
    ∀ (l : List Char) (fuel i : Nat), l.length + 1 - i ≤ fuel →
      (∀ y, searchYearAux l fuel i = some y →
        ∃ j, i ≤ j ∧ yearCondAt l j = true ∧
          (∀ k, i ≤ k → k < j → yearCondAt l k = false) ∧ y = ⟨yearSub l j⟩) ∧
      (searchYearAux l fuel i = none → ∀ j, i ≤ j → yearCondAt l j = false) := by
  intro l fuel
  induction fuel with
  | zero =>
    intro i hf
    have hi : l.length < i := by omega
    constructor
    · intro y hy
      simp [searchYearAux] at hy
    · intro _ j hj
      exact yearCondAt_of_le (by omega)
  | succ fuel ih =>
    intro i hf
    rw [searchYearAux]
    by_cases hge : i ≥ l.length
    · rw [if_pos hge]
      constructor
      · intro y hy
        cases hy
      · intro _ j hj
        exact yearCondAt_of_le (by omega)
    · rw [if_neg hge]
      by_cases hc : yearCondAt l i
      · rw [if_pos hc]
        constructor
        · intro y hy
          injection hy with hy
          exact ⟨i, Nat.le_refl i, hc, by omega, hy.symm⟩
        · intro hnone
          cases hnone
      · rw [if_neg hc]
        obtain ⟨ihs, ihn⟩ := ih (i + 1) (by omega)
        constructor
        · intro y hy
          obtain ⟨j, hj1, hj2, hj3, hj4⟩ := ihs y hy
          refine ⟨j, by omega, hj2, ?_, hj4⟩
          intro k hk1 hk2
          rcases Nat.eq_or_lt_of_le hk1 with hk | hk
          · subst hk
            simpa using hc
          · exact hj3 k hk hk2
        · intro hnone j hj
          rcases Nat.eq_or_lt_of_le hj with hjj | hjj
          · subst hjj
            simpa using hc
          · exact ihn hnone j hjj

/-- A scan for the claim's reading of year extraction
(modelled from the spec: the first 4-digit number in 1000–9999 occurring
anywhere in the string, i.e. four consecutive digits not starting with
`0`). -/
def claimDigit4At (l : List Char) (i : Nat) : Bool :=
  match l.drop i with
  | c1 :: c2 :: c3 :: c4 :: _ =>
    c1.isDigit && c2.isDigit && c3.isDigit && c4.isDigit && c1 ≠ '0'
  | _ => false

/-- Modelled from the spec: left-to-right scan for `claimDigit4At`. -/
def claimYearAux (l : List Char) : Nat → Nat → Option String
  | 0, _ => none
  | fuel + 1, i =>
    if i ≥ l.length then none
    else if claimDigit4At l i then some ⟨yearSub l i⟩
    else claimYearAux l fuel (i + 1)

/-- Modelled from the spec: `"the first 4-digit year in the range
1000–9999 occurring in the string"`, with `None` for a falsy input. -/
def claimed_year_extract (s : String) : Option String :=
  if s = "" then none else claimYearAux s.data (s.data.length + 1) 0

/-- **C9 counterexample.**  On `"1850"` the code returns no year (its
regex only accepts years starting `19` or `20`), while the claim's
1000–9999 reading returns `"1850"`. -/
theorem C9_counterexample :
    extract_year_from_date_string "1850" = none ∧
    claimed_year_extract "1850" = some "1850" := by
  refine ⟨by decide, by decide⟩

/-- **C9 (amended).**  For every free-text `published`/`publish_date`
string, year extraction returns the text of the first word-boundary-
delimited match of `(19|20)` followed by two digits (a year 1900–2099),
and an explicit absence when no such match occurs; a falsy input yields
absence. -/
theorem C9_year_from_date_amended (s : String) :
    (s = "" → extract_year_from_date_string s = none) ∧
    (∀ y, extract_year_from_date_string s = some y →
      ∃ j, yearCondAt s.data j = true ∧ (∀ k, k < j → yearCondAt s.data k = false) ∧
        y = ⟨yearSub s.data j⟩) ∧
    (extract_year_from_date_string s = none → ∀ j, yearCondAt s.data j = false) := by
  refine ⟨?_, ?_, ?_⟩
  · intro h
    simp [extract_year_from_date_string, h]
  · intro y hy
    by_cases hs : s = ""
    · rw [extract_year_from_date_string, if_pos hs] at hy
      cases hy
    · rw [extract_year_from_date_string, if_neg hs] at hy
      obtain ⟨hsome, -⟩ := searchYearAux_spec s.data (s.data.length + 1) 0 (by omega)
      obtain ⟨j, -, hj2, hj3, hj4⟩ := hsome y hy
      exact ⟨j, hj2, fun k hk => hj3 k (Nat.zero_le k) hk, hj4⟩
  · intro hy j
    by_cases hs : s = ""
    · subst hs
      exact yearCondAt_of_le (by simp)
    · rw [extract_year_from_date_string, if_neg hs] at hy
      obtain ⟨-, hnone⟩ := searchYearAux_spec s.data (s.data.length + 1) 0 (by omega)
      exact hnone hy j (Nat.zero_le j)

/-- Witness for C9 (amended) at concrete inputs. -/
theorem C9_year_from_date_amended_witness :
    extract_year_from_date_string "" = none ∧ yearCondAt "abc".data 0 = false :=
  ⟨(C9_year_from_date_amended "").1 rfl,
   (C9_year_from_date_amended "abc").2.2 (by decide) 0⟩

/-! ## `extract_ids_from_pdf` (lines 368–426)

The per-page extractors `extract_doi_from_text`, `extract_arxiv_from_text`,
`extract_isbn_from_text` and `extract_title_from_text` are separate methods
of the class; the scan is modelled over them as function parameters
(`ed`, `ea`, `ei`, `et`).  A page is `Option String`: `none` stands for a
page whose text is falsy after the extraction fallbacks, or whose
processing raised (both continue the loop without touching `ids`). -/

/-- The set of identifiers collected while scanning (the `ids` dict). -/
structure IdSet where
  doi : Option String := none
  arxiv : Option String := none
  isbn : Option String := none
  title : Option String := none
deriving DecidableEq

/-- Line 392: `text.replace('\x00', '').replace('\xa0', ' ')`. -/
def cleanPageText (s : String) : String :=
  ⟨s.data.foldr
    (fun c acc => if c = '\x00' then acc else (if c.toNat = 0xa0 then ' ' else c) :: acc) []⟩

/-- `True` when one of `doi`/`arxiv`/`isbn` is populated (line 419). -/
def hasHardId (ids : IdSet) : Bool :=
  ids.doi.isSome || ids.arxiv.isSome || ids.isbn.isSome

/-- Line 395-398: probe for a DOI when the key is absent. -/
def scanDoi (ed : String → Option String) (t : String) (ids : IdSet) : IdSet :=
  if ids.doi.isNone then { ids with doi := ed t } else ids

/-- Lines 400–404: probe for an arXiv id, gated by `USE_ARXIV`. -/
def scanArxiv (useArxiv : Bool) (ea : String → Option String) (t : String) (ids : IdSet) : IdSet :=
  if ids.arxiv.isNone && useArxiv then { ids with arxiv := ea t } else ids

/-- Lines 406–410: probe for an ISBN when the key is absent. -/
def scanIsbn (ei : String → Option String) (t : String) (ids : IdSet) : IdSet :=
  if ids.isbn.isNone then { ids with isbn := ei t } else ids

/-- Lines 412–416: the title heuristic, on page index 0 only. -/
def scanTitle (et : String → Option String) (pageNum : Nat) (t : String) (ids : IdSet) : IdSet :=
  if pageNum == 0 && ids.title.isNone then { ids with title := et t } else ids

/-- Lines 390–417: update `ids` from one page's text: clean the text, then
run the four probes in source order. -/
def scan_page (useArxiv : Bool) (ed ea ei et : String → Option String)
    (pageNum : Nat) (ids : IdSet) (text : String) : IdSet :=
  scanTitle et pageNum (cleanPageText text)
    (scanIsbn ei (cleanPageText text)
      (scanArxiv useArxiv ea (cleanPageText text)
        (scanDoi ed (cleanPageText text) ids)))

/-- The page loop of lines 377–424: process pages in order, stop after the
first page on which a hard identifier is populated. -/
def scan_pages (useArxiv : Bool) (ed ea ei et : String → Option String) :
    Nat → IdSet → List (Option String) → IdSet
  | _, ids, [] => ids
  | pageNum, ids, none :: rest => scan_pages useArxiv ed ea ei et (pageNum + 1) ids rest
  | pageNum, ids, some text :: rest =>
    let ids2 := scan_page useArxiv ed ea ei et pageNum ids text
    if hasHardId ids2 then ids2
    else scan_pages useArxiv ed ea ei et (pageNum + 1) ids2 rest

/-- `extract_ids_from_pdf` (lines 368–426):
`pages_to_check = min(max_pages, len(reader.pages))`. -/
def extract_ids_from_pdf (maxPages : Nat) (useArxiv : Bool)
    (ed ea ei et : String → Option String) (pages : List (Option String)) : IdSet :=
  scan_pages useArxiv ed ea ei et 0 {} (pages.take (min maxPages pages.length))

theorem scanDoi_doi_of_isSome {ed t ids} (h : ids.doi.isSome = true) :
    (scanDoi ed t ids).doi = ids.doi := by
  unfold scanDoi
  rw [if_neg (by simp_all [Option.isSome_iff_ne_none])]

theorem scanDoi_arxiv (ed : String → Option String) (t : String) (ids : IdSet) :
    (scanDoi ed t ids).arxiv = ids.arxiv := by
  unfold scanDoi
  split <;> rfl

theorem scanDoi_isbn (ed : String → Option String) (t : String) (ids : IdSet) :
    (scanDoi ed t ids).isbn = ids.isbn := by
  unfold scanDoi
  split <;> rfl

theorem scanDoi_title (ed : String → Option String) (t : String) (ids : IdSet) :
    (scanDoi ed t ids).title = ids.title := by
  unfold scanDoi
  split <;> rfl

theorem scanArxiv_arxiv_of_isSome {u ea t ids} (h : ids.arxiv.isSome = true) :
    (scanArxiv u ea t ids).arxiv = ids.arxiv := by
  unfold scanArxiv
  rw [if_neg (by simp_all [Option.isSome_iff_ne_none])]

theorem scanArxiv_doi (u : Bool) (ea : String → Option String) (t : String) (ids : IdSet) :
    (scanArxiv u ea t ids).doi = ids.doi := by
  unfold scanArxiv
  split <;> rfl

theorem scanArxiv_isbn (u : Bool) (ea : String → Option String) (t : String) (ids : IdSet) :
    (scanArxiv u ea t ids).isbn = ids.isbn := by
  unfold scanArxiv
  split <;> rfl

theorem scanArxiv_title (u : Bool) (ea : String → Option String) (t : String) (ids : IdSet) :
    (scanArxiv u ea t ids).title = ids.title := by
  unfold scanArxiv
  split <;> rfl

theorem scanIsbn_isbn_of_isSome {ei t ids} (h : ids.isbn.isSome = true) :
    (scanIsbn ei t ids).isbn = ids.isbn := by
  unfold scanIsbn
  rw [if_neg (by simp_all [Option.isSome_iff_ne_none])]

theorem scanIsbn_doi (ei : String → Option String) (t : String) (ids : IdSet) :
    (scanIsbn ei t ids).doi = ids.doi := by
  unfold scanIsbn
  split <;> rfl

theorem scanIsbn_arxiv (ei : String → Option String) (t : String) (ids : IdSet) :
    (scanIsbn ei t ids).arxiv = ids.arxiv := by
  unfold scanIsbn
  split <;> rfl

theorem scanIsbn_title (ei : String → Option String) (t : String) (ids : IdSet) :
    (scanIsbn ei t ids).title = ids.title := by
  unfold scanIsbn
  split <;> rfl

theorem scanTitle_title_of_isSome {et n t ids} (h : ids.title.isSome = true) :
    (scanTitle et n t ids).title = ids.title := by
  unfold scanTitle
  rw [if_neg (by simp_all [Option.isSome_iff_ne_none])]

theorem scanTitle_title_of_pos {et : String → Option String} {n : Nat} {t : String}
    {ids : IdSet} (h : 1 ≤ n) : (scanTitle et n t ids).title = ids.title := by
  unfold scanTitle
  rw [if_neg (by simp [Nat.ne_of_gt h])]

theorem scanTitle_doi (et : String → Option String) (n : Nat) (t : String) (ids : IdSet) :
    (scanTitle et n t ids).doi = ids.doi := by
  unfold scanTitle
  split <;> rfl

theorem scanTitle_arxiv (et : String → Option String) (n : Nat) (t : String) (ids : IdSet) :
    (scanTitle et n t ids).arxiv = ids.arxiv := by
  unfold scanTitle
  split <;> rfl

theorem scanTitle_isbn (et : String → Option String) (n : Nat) (t : String) (ids : IdSet) :
    (scanTitle et n t ids).isbn = ids.isbn := by
  unfold scanTitle
  split <;> rfl

theorem scan_page_preserves_doi (useArxiv : Bool) (ed ea ei et : String → Option String)
    (n : Nat) (ids : IdSet) (t : String) (h : ids.doi.isSome = true) :
    (scan_page useArxiv ed ea ei et n ids t).doi = ids.doi := by
  unfold scan_page
  rw [scanTitle_doi, scanIsbn_doi, scanArxiv_doi, scanDoi_doi_of_isSome h]

theorem scan_page_preserves_arxiv (useArxiv : Bool) (ed ea ei et : String → Option String)
    (n : Nat) (ids : IdSet) (t : String) (h : ids.arxiv.isSome = true) :
    (scan_page useArxiv ed ea ei et n ids t).arxiv = ids.arxiv := by
  unfold scan_page
  rw [scanTitle_arxiv, scanIsbn_arxiv, scanArxiv_arxiv_of_isSome (by rw [scanDoi_arxiv]; exact h),
    scanDoi_arxiv]

theorem scan_page_preserves_isbn (useArxiv : Bool) (ed ea ei et : String → Option String)
    (n : Nat) (ids : IdSet) (t : String) (h : ids.isbn.isSome = true) :
    (scan_page useArxiv ed ea ei et n ids t).isbn = ids.isbn := by
  unfold scan_page
  rw [scanTitle_isbn,
    scanIsbn_isbn_of_isSome (by rw [scanArxiv_isbn, scanDoi_isbn]; exact h),
    scanArxiv_isbn, scanDoi_isbn]

theorem scan_page_preserves_title (useArxiv : Bool) (ed ea ei et : String → Option String)
    (n : Nat) (ids : IdSet) (t : String) (h : ids.title.isSome = true) :
    (scan_page useArxiv ed ea ei et n ids t).title = ids.title := by
  unfold scan_page
  rw [scanTitle_title_of_isSome
      (by rw [scanIsbn_title, scanArxiv_title, scanDoi_title]; exact h),
    scanIsbn_title, scanArxiv_title, scanDoi_title]

theorem scan_page_title_later_pages (useArxiv : Bool) (ed ea ei et : String → Option String)
    (n : Nat) (ids : IdSet) (t : String) (h : 1 ≤ n) :
    (scan_page useArxiv ed ea ei et n ids t).title = ids.title := by
  unfold scan_page
  rw [scanTitle_title_of_pos h, scanIsbn_title, scanArxiv_title, scanDoi_title]

theorem scan_pages_preserves_doi (useArxiv : Bool) (ed ea ei et : String → Option String) :
    ∀ (pages : List (Option String)) (n : Nat) (ids : IdSet), ids.doi.isSome = true →
      (scan_pages useArxiv ed ea ei et n ids pages).doi = ids.doi := by
  intro pages
  induction pages with
  | nil => intro n ids _; rfl
  | cons p rest ih =>
    intro n ids h
    match p with
    | none => exact ih (n + 1) ids h
    | some t =>
      rw [scan_pages]
      have hp := scan_page_preserves_doi useArxiv ed ea ei et n ids t h
      split
      · exact hp
      · rw [ih (n + 1) _ (by rw [hp]; exact h), hp]

theorem scan_pages_preserves_arxiv (useArxiv : Bool) (ed ea ei et : String → Option String) :
    ∀ (pages : List (Option String)) (n : Nat) (ids : IdSet), ids.arxiv.isSome = true →
      (scan_pages useArxiv ed ea ei et n ids pages).arxiv = ids.arxiv := by
  intro pages
  induction pages with
  | nil => intro n ids _; rfl
  | cons p rest ih =>
    intro n ids h
    match p with
    | none => exact ih (n + 1) ids h
    | some t =>
      rw [scan_pages]
      have hp := scan_page_preserves_arxiv useArxiv ed ea ei et n ids t h
      split
      · exact hp
      · rw [ih (n + 1) _ (by rw [hp]; exact h), hp]

theorem scan_pages_preserves_isbn (useArxiv : Bool) (ed ea ei et : String → Option String) :
    ∀ (pages : List (Option String)) (n : Nat) (ids : IdSet), ids.isbn.isSome = true →
      (scan_pages useArxiv ed ea ei et n ids pages).isbn = ids.isbn := by
  intro pages
  induction pages with
  | nil => intro n ids _; rfl
  | cons p rest ih =>
    intro n ids h
    match p with
    | none => exact ih (n + 1) ids h
    | some t =>
      rw [scan_pages]
      have hp := scan_page_preserves_isbn useArxiv ed ea ei et n ids t h
      split
      · exact hp
      · rw [ih (n + 1) _ (by rw [hp]; exact h), hp]

theorem scan_pages_preserves_title (useArxiv : Bool) (ed ea ei et : String → Option String) :
    ∀ (pages : List (Option String)) (n : Nat) (ids : IdSet), ids.title.isSome = true →
      (scan_pages useArxiv ed ea ei et n ids pages).title = ids.title := by
  intro pages
  induction pages with
  | nil => intro n ids _; rfl
  | cons p rest ih =>
    intro n ids h
    match p with
    | none => exact ih (n + 1) ids h
    | some t =>
      rw [scan_pages]
      have hp := scan_page_preserves_title useArxiv ed ea ei et n ids t h
      split
      · exact hp
      · rw [ih (n + 1) _ (by rw [hp]; exact h), hp]

theorem scan_pages_stop (useArxiv : Bool) (ed ea ei et : String → Option String) :
    ∀ (ps1 ps2 : List (Option String)) (n : Nat) (ids : IdSet),
      hasHardId ids = false →
      hasHardId (scan_pages useArxiv ed ea ei et n ids ps1) = true →
      scan_pages useArxiv ed ea ei et n ids (ps1 ++ ps2) =
        scan_pages useArxiv ed ea ei et n ids ps1 := by
  intro ps1
  induction ps1 with
  | nil =>
    intro ps2 n ids h0 h1
    rw [scan_pages] at h1
    rw [h0] at h1
    cases h1
  | cons p rest ih =>
    intro ps2 n ids h0 h1
    match p with
    | none =>
      simp only [List.cons_append, scan_pages] at h1 ⊢
      exact ih ps2 (n + 1) ids h0 h1
    | some t =>
      simp only [List.cons_append, scan_pages] at h1 ⊢
      rcases Bool.eq_false_or_eq_true (hasHardId (scan_page useArxiv ed ea ei et n ids t)) with
        hh | hh
      · simp [hh]
      · simp only [hh, Bool.false_eq_true, if_false] at h1 ⊢
        exact ih ps2 (n + 1) _ hh h1

theorem scan_pages_title_of_pos (useArxiv : Bool) (ed ea ei et : String → Option String) :
    ∀ (pages : List (Option String)) (n : Nat) (ids : IdSet), 1 ≤ n →
      (scan_pages useArxiv ed ea ei et n ids pages).title = ids.title := by
  intro pages
  induction pages with
  | nil => intro n ids _; rfl
  | cons p rest ih =>
    intro n ids h
    match p with
    | none => exact ih (n + 1) ids (by omega)
    | some t =>
      rw [scan_pages]
      have hp := scan_page_title_later_pages useArxiv ed ea ei et n ids t h
      split
      · exact hp
      · rw [ih (n + 1) _ (by omega), hp]

theorem scan_page_title_page0 (useArxiv : Bool) (ed ea ei et : String → Option String)
    (ids : IdSet) (t : String) (h : ids.title = none) :
    (scan_page useArxiv ed ea ei et 0 ids t).title = et (cleanPageText t) := by
  unfold scan_page
  have hin : (scanIsbn ei (cleanPageText t)
      (scanArxiv useArxiv ea (cleanPageText t) (scanDoi ed (cleanPageText t) ids))).title = none := by
    rw [scanIsbn_title, scanArxiv_title, scanDoi_title]
    exact h
  unfold scanTitle
  rw [if_pos (by simp [hin])]

/-- **C4.**  While scanning a PDF's pages for identifiers, a populated key
of the `IdSet` is never overwritten (conjuncts 1–4); the page scan stops
after the first page on which any of `doi`/`arxiv`/`isbn` became populated,
so identifiers appearing only on later pages are ignored (conjunct 5); and
the title heuristic is applied on the first page only (conjuncts 6–7). -/
theorem C4_id_scan (useArxiv : Bool) (ed ea ei et : String → Option String) :
    (∀ (pages : List (Option String)) (n : Nat) (ids : IdSet), ids.doi.isSome = true →
      (scan_pages useArxiv ed ea ei et n ids pages).doi = ids.doi) ∧
    (∀ (pages : List (Option String)) (n : Nat) (ids : IdSet), ids.arxiv.isSome = true →
      (scan_pages useArxiv ed ea ei et n ids pages).arxiv = ids.arxiv) ∧
    (∀ (pages : List (Option String)) (n : Nat) (ids : IdSet), ids.isbn.isSome = true →
      (scan_pages useArxiv ed ea ei et n ids pages).isbn = ids.isbn) ∧
    (∀ (pages : List (Option String)) (n : Nat) (ids : IdSet), ids.title.isSome = true →
      (scan_pages useArxiv ed ea ei et n ids pages).title = ids.title) ∧
    (∀ (ps1 ps2 : List (Option String)) (n : Nat) (ids : IdSet),
      hasHardId ids = false →
      hasHardId (scan_pages useArxiv ed ea ei et n ids ps1) = true →
      scan_pages useArxiv ed ea ei et n ids (ps1 ++ ps2) =
        scan_pages useArxiv ed ea ei et n ids ps1) ∧
    (∀ (pages : List (Option String)) (n : Nat) (ids : IdSet), 1 ≤ n →
      (scan_pages useArxiv ed ea ei et n ids pages).title = ids.title) ∧
    (∀ (maxPages : Nat) (pages : List (Option String)), 1 ≤ maxPages →
      (extract_ids_from_pdf maxPages useArxiv ed ea ei et pages).title =
        (match pages with
         | some t :: _ => et (cleanPageText t)
         | _ => none)) := by
  refine ⟨scan_pages_preserves_doi useArxiv ed ea ei et,
    scan_pages_preserves_arxiv useArxiv ed ea ei et,
    scan_pages_preserves_isbn useArxiv ed ea ei et,
    scan_pages_preserves_title useArxiv ed ea ei et,
    scan_pages_stop useArxiv ed ea ei et,
    scan_pages_title_of_pos useArxiv ed ea ei et, ?_⟩
  intro maxPages pages hmax
  unfold extract_ids_from_pdf
  match pages with
  | [] =>
    rw [List.take_nil]
    rfl
  | none :: rest =>
    have h1 : 1 ≤ min maxPages (none :: rest : List (Option String)).length := by
      simp [Nat.le_min]
      omega
    cases hm : min maxPages (none :: rest : List (Option String)).length with
    | zero => omega
    | succ k =>
      rw [List.take_succ_cons, scan_pages]
      exact scan_pages_title_of_pos useArxiv ed ea ei et _ 1 {} (by omega)
  | some t :: rest =>
    have h1 : 1 ≤ min maxPages (some t :: rest : List (Option String)).length := by
      simp [Nat.le_min]
      omega
    cases hm : min maxPages (some t :: rest : List (Option String)).length with
    | zero => omega
    | succ k =>
      rw [List.take_succ_cons, scan_pages]
      have hp0 := scan_page_title_page0 useArxiv ed ea ei et {} t rfl
      split
      · exact hp0
      · rw [scan_pages_title_of_pos useArxiv ed ea ei et _ 1 _ (by omega), hp0]

/-- Witness for C4 at a concrete input: with a DOI found on page 1, the
second page is never consulted. -/
theorem C4_id_scan_witness :
    scan_pages false (fun _ => some "10.1/x") (fun _ => none) (fun _ => none) (fun _ => none)
      0 {} ([some "p1"] ++ [some "p2"]) =
    scan_pages false (fun _ => some "10.1/x") (fun _ => none) (fun _ => none) (fun _ => none)
      0 {} [some "p1"] :=
  (C4_id_scan false (fun _ => some "10.1/x") (fun _ => none) (fun _ => none)
      (fun _ => none)).2.2.2.2.1 [some "p1"] [some "p2"] 0 {} (by decide) (by decide)

/-! ## `query_crossref` and the per-run API cache (lines 428–462)

The HTTP collaborator is the oracle `net : String → Option R`
(`some` = a 200 response's `message`, `none` = the empty record produced on
404, another status, a timeout or a transport error — the function stores
`{}` in the cache on every one of those paths, lines 451–462).  The cache
`self.api_cache` is an association list keyed by `"crossref_" ++ doi`; the
returned `Bool` records whether the network was consulted. -/

/-- `cache_key = f"crossref_{doi}"` (line 430). -/
def crossrefKey (doi : String) : String :=
  "crossref_" ++ doi

/-- `query_crossref` (lines 428–462) over the network oracle `net`. -/
def query_crossref {R : Type} (net : String → Option R)
    (cache : List (String × Option R)) (doi : String) :
    Option R × List (String × Option R) × Bool :=
  match cache.lookup (crossrefKey doi) with
  | some v => (v, cache, false)
  | none => (net doi, (crossrefKey doi, net doi) :: cache, true)

/-- The batch loop's successive DOI lookups: returns the per-query results,
the final cache, and the list of DOIs for which the network was called. -/
def run_crossref_queries {R : Type} (net : String → Option R) :
    List String → List (String × Option R) →
      List (Option R) × List (String × Option R) × List String
  | [], cache => ([], cache, [])
  | d :: ds, cache =>
    let q := query_crossref net cache d
    let r := run_crossref_queries net ds q.2.1
    (q.1 :: r.1, r.2.1, if q.2.2 then d :: r.2.2 else r.2.2)

theorem crossrefKey_injective {d e : String} (h : crossrefKey d = crossrefKey e) : d = e := by
  unfold crossrefKey at h
  have h2 := congrArg String.data h
  simp only [String.data_append] at h2
  have h3 := List.append_cancel_left h2
  cases d
  cases e
  exact congrArg String.mk h3

theorem run_crossref_queries_invariant {R : Type} (net : String → Option R) :
    ∀ (ds : List String) (cache : List (String × Option R)),
      (∀ e, cache.lookup (crossrefKey e) = none ∨
            cache.lookup (crossrefKey e) = some (net e)) →
      (run_crossref_queries net ds cache).1 = ds.map net ∧
      (run_crossref_queries net ds cache).2.2.Nodup ∧
      (∀ e, e ∈ (run_crossref_queries net ds cache).2.2 →
        cache.lookup (crossrefKey e) = none) ∧
      (∀ e, (run_crossref_queries net ds cache).2.1.lookup (crossrefKey e) = none ∨
            (run_crossref_queries net ds cache).2.1.lookup (crossrefKey e) = some (net e)) := by
  intro ds
  induction ds with
  | nil =>
    intro cache hc
    refine ⟨rfl, List.nodup_nil, ?_, hc⟩
    intro e he
    cases he
  | cons d ds ih =>
    intro cache hc
    simp only [run_crossref_queries, query_crossref]
    cases hl : cache.lookup (crossrefKey d) with
    | some v =>
      have hv : v = net d := by
        rcases hc d with h | h
        · rw [hl] at h
          cases h
        · rw [hl] at h
          injection h
      obtain ⟨ih1, ih2, ih3, ih4⟩ := ih cache hc
      subst hv
      exact ⟨by simp [ih1], ih2, fun e he => ih3 e he, ih4⟩
    | none =>
      have hc2 : ∀ e, ((crossrefKey d, net d) :: cache).lookup (crossrefKey e) = none ∨
          ((crossrefKey d, net d) :: cache).lookup (crossrefKey e) = some (net e) := by
        intro e
        by_cases he : e = d
        · subst he
          right
          simp [List.lookup]
        · rw [List.lookup]
          have hne : (crossrefKey e == crossrefKey d) = false := by
            rw [beq_eq_false_iff_ne]
            intro hk
            exact he (crossrefKey_injective hk)
          rw [hne]
          exact hc e
      obtain ⟨ih1, ih2, ih3, ih4⟩ := ih ((crossrefKey d, net d) :: cache) hc2
      refine ⟨by simp [ih1], ?_, ?_, ih4⟩
      · refine List.Nodup.cons ?_ ih2
        intro hmem
        have h3 := ih3 d hmem
        simp [List.lookup] at h3
      · intro e he
        rcases List.mem_cons.mp he with he1 | he1
        · subst he1
          exact hl
        · have h3 := ih3 e he1
          rw [List.lookup] at h3
          by_cases hk : (crossrefKey e == crossrefKey d) = true
          · rw [hk] at h3
            cases h3
          · rw [Bool.not_eq_true] at hk
            rw [hk] at h3
            exact h3

/-- **C3.**  During one batch run, every DOI's CrossRef lookup touches the
network at most once (the call list is duplicate-free), and every query —
whether its result was a record or the cached empty result — receives
exactly the network oracle's value for its DOI, i.e. repeated queries are
served from the cache with the first call's result. -/
theorem C3_crossref_cache {R : Type} (net : String → Option R) (ds : List String) :
    (run_crossref_queries net ds []).1 = ds.map net ∧
    (run_crossref_queries net ds []).2.2.Nodup := by
  obtain ⟨h1, h2, -, -⟩ :=
    run_crossref_queries_invariant net ds [] (fun e => Or.inl rfl)
  exact ⟨h1, h2⟩

/-! ## `process_single_pdf` (lines 792–989)

The per-file pipeline between backup and routing — opening the PDF,
extracting identifiers, querying the services and reconciling the fields
(lines 815–945) — is abstracted as the environment's `body`: `.ok` with the
resolved fields (and the needs-attention flag the no-identifier branch of
line 881 sets), or `.error` with the exception text.  Filesystem effects are
oracles: `backupOk` (line 808), `moveNAOk`/`moveBackupFailedOk` (the
`shutil.move` calls into the review folder), `samePath` (whether the
collision-resolved rename target equals the file's own path, line 966),
`renameOk` (`os.rename`), and `recoveryOk` (the recovery
`move_to_needs_attention` of line 983).  `handle_duplicate_filenames`
collision suffixing is not modelled; the `Fate` target carries the name the
move was requested under. -/

/-- Line 948: `any(field == f"Unknown{name}" ...)` over author, title,
year. -/
def needsAttentionCheck (a t y : String) : Bool :=
  (a == "UnknownAuthor") || (t == "UnknownTitle") || (y == "UnknownYear")

/-- The outcome of lines 815–945 when no exception is raised. -/
structure Resolution where
  finalAuthor : String
  finalYear : String
  finalTitle : String
  noIdentifiers : Bool
  metadataSource : String
deriving DecidableEq

/-- Where the file ends up. -/
inductive Fate where
  | review (target : String)
  | renamed (target : String)
  | original
deriving DecidableEq

/-- The effect oracles for one `process_single_pdf` call. -/
structure PEnv where
  backupOk : Bool
  moveBackupFailedOk : Bool
  moveBackupFailedErr : String
  body : Except String Resolution
  moveNAOk : Bool
  moveNAErr : String
  samePath : Bool
  renameOk : Bool
  renameErr : String
  recoveryOk : Bool
  origFilename : String

/-- The return tuple `(success, status_message, new_filename,
needs_attention)` of `process_single_pdf`, plus the file's fate. -/
structure POut where
  success : Bool
  status : String
  newFilename : String
  needsAttention : Bool
  fate : Fate
deriving DecidableEq

/-- The `except` handler of lines 977–987 in a non-dry run: try
`move_to_needs_attention(..., "processing_error")`; if that raises too,
report the original error and leave the file in place. -/
def recover_from_error (env : PEnv) (e : String) : POut :=
  if env.recoveryOk then
    { success := false, status := "⚠ Moved to needs-attention (processing_error)",
      newFilename := env.origFilename, needsAttention := true,
      fate := .review env.origFilename }
  else
    { success := false,
      status := "✗ Error: " ++ e ++ " (couldn\x27t move to needs-attention)",
      newFilename := env.origFilename, needsAttention := false, fate := .original }

/-- `process_single_pdf` (lines 792–989). -/
def process_single_pdf (dryRun createBackup : Bool) (nfd : String → String)
    (isMn : Char → Bool) (colonRepl : String) (maxTitle : Nat) (env : PEnv) : POut :=
  if !dryRun && createBackup && !env.backupOk then
    if env.moveBackupFailedOk then
      { success := false, status := "⚠ Moved to needs-attention (backup_failed)",
        newFilename := env.origFilename, needsAttention := true,
        fate := .review env.origFilename }
    else recover_from_error env env.moveBackupFailedErr
  else
    match env.body with
    | .error e =>
      if dryRun then
        { success := false, status := "✗ Would fail and move to needs-attention: " ++ e,
          newFilename := env.origFilename, needsAttention := false, fate := .original }
      else recover_from_error env e
    | .ok r =>
      let na := r.noIdentifiers ||
        needsAttentionCheck r.finalAuthor r.finalTitle r.finalYear
      let newName := create_filename nfd isMn colonRepl maxTitle
        r.finalAuthor r.finalYear r.finalTitle
      if dryRun then
        if na then
          { success := true,
            status := "⚠ Would move to needs-attention (" ++ r.metadataSource ++ ")",
            newFilename := newName, needsAttention := na, fate := .original }
        else
          { success := true, status := "✓ Would rename (" ++ r.metadataSource ++ ")",
            newFilename := newName, needsAttention := na, fate := .original }
      else
        if na then
          if env.moveNAOk then
            { success := true,
              status := "⚠ Moved to needs-attention (" ++ r.metadataSource ++ ")",
              newFilename := newName, needsAttention := na, fate := .review newName }
          else recover_from_error env env.moveNAErr
        else
          if env.samePath then
            { success := true, status := "✓ Renamed (" ++ r.metadataSource ++ ")",
              newFilename := newName, needsAttention := na, fate := .original }
          else if env.renameOk then
            { success := true, status := "✓ Renamed (" ++ r.metadataSource ++ ")",
              newFilename := newName, needsAttention := na, fate := .renamed newName }
          else recover_from_error env env.renameErr

/-- **C1.**  In a non-dry run with a working backup, a file whose resolved
fields contain a sentinel is never renamed in place; and when the move into
the review folder succeeds, the file is flagged needs-attention and moved
into the review folder under the built filename. -/
theorem C1_sentinel_routing (createBackup : Bool) (nfd : String → String)
    (isMn : Char → Bool) (colonRepl : String) (maxTitle : Nat) (env : PEnv)
    (r : Resolution)
    (hbody : env.body = .ok r)
    (hback : env.backupOk = true)
    (hsent : needsAttentionCheck r.finalAuthor r.finalTitle r.finalYear = true) :
    (∀ name,
      (process_single_pdf false createBackup nfd isMn colonRepl maxTitle env).fate ≠
        Fate.renamed name) ∧
    (env.moveNAOk = true →
      process_single_pdf false createBackup nfd isMn colonRepl maxTitle env =
        { success := true,
          status := "⚠ Moved to needs-attention (" ++ r.metadataSource ++ ")",
          newFilename := create_filename nfd isMn colonRepl maxTitle
            r.finalAuthor r.finalYear r.finalTitle,
          needsAttention := true,
          fate := .review (create_filename nfd isMn colonRepl maxTitle
            r.finalAuthor r.finalYear r.finalTitle) }) := by
  constructor
  · intro name
    simp only [process_single_pdf, recover_from_error, hbody, hback, hsent,
      Bool.or_true, Bool.not_true, Bool.and_false, Bool.not_false, Bool.true_and,
      Bool.false_eq_true, if_false]
    repeat' split
    all_goals simp_all
  · intro hmove
    simp only [process_single_pdf, recover_from_error, hbody, hback, hsent, hmove,
      Bool.or_true, Bool.not_true, Bool.and_false, Bool.not_false, Bool.true_and,
      Bool.false_eq_true, if_false, if_true]

/-- The resolved fields of the C1 witness environment. -/
def c1Res : Resolution :=
  { finalAuthor := "UnknownAuthor", finalYear := "2020", finalTitle := "Paper",
    noIdentifiers := false, metadataSource := "pdf_metadata" }

/-- The C1 witness environment: sentinel author, all filesystem effects
succeeding. -/
def c1Env : PEnv :=
  { backupOk := true, moveBackupFailedOk := true, moveBackupFailedErr := "",
    body := Except.ok c1Res,
    moveNAOk := true, moveNAErr := "", samePath := false, renameOk := true,
    renameErr := "", recoveryOk := true, origFilename := "x.pdf" }

/-- Witness for C1 at a concrete environment: an unknown author routes the
file into the review folder under the built name. -/
theorem C1_sentinel_routing_witness :
    process_single_pdf false true id (fun _ => false) " -" 70 c1Env =
      { success := true, status := "⚠ Moved to needs-attention (pdf_metadata)",
        newFilename := "UnknownAuthor - 2020 - Paper.pdf", needsAttention := true,
        fate := Fate.review "UnknownAuthor - 2020 - Paper.pdf" } :=
  ((C1_sentinel_routing true id (fun _ => false) " -" 70 c1Env c1Res
      rfl rfl (by decide)).2 rfl).trans (by decide)

/-- **C2 (amended).**  In a non-dry run: an exception after backup moves
the file to the review folder with reason `processing_error` and a
needs-attention outcome; if the recovery move itself raises, the outcome is
failed, the original error text is embedded in the status message and the
file stays at its original path; and a file ends at its original path only
in a failed outcome or in a successful no-op rename whose computed target
equals the file's own path. -/
theorem C2_error_handling (createBackup : Bool) (nfd : String → String)
    (isMn : Char → Bool) (colonRepl : String) (maxTitle : Nat) (env : PEnv) :
    (∀ e, env.body = Except.error e → env.backupOk = true →
      (env.recoveryOk = true →
        process_single_pdf false createBackup nfd isMn colonRepl maxTitle env =
          { success := false, status := "⚠ Moved to needs-attention (processing_error)",
            newFilename := env.origFilename, needsAttention := true,
            fate := .review env.origFilename }) ∧
      (env.recoveryOk = false →
        process_single_pdf false createBackup nfd isMn colonRepl maxTitle env =
          { success := false,
            status := "✗ Error: " ++ e ++ " (couldn\x27t move to needs-attention)",
            newFilename := env.origFilename, needsAttention := false,
            fate := .original })) ∧
    ((process_single_pdf false createBackup nfd isMn colonRepl maxTitle env).fate =
        Fate.original →
      ((process_single_pdf false createBackup nfd isMn colonRepl maxTitle env).success =
          false ∧
        (process_single_pdf false createBackup nfd isMn colonRepl
            maxTitle env).needsAttention = false) ∨
      ((process_single_pdf false createBackup nfd isMn colonRepl maxTitle env).success =
          true ∧
        env.samePath = true)) := by
  constructor
  · intro e hbody hback
    constructor
    · intro hrec
      simp [process_single_pdf, recover_from_error, hbody, hback, hrec]
    · intro hrec
      simp [process_single_pdf, recover_from_error, hbody, hback, hrec]
  · simp only [process_single_pdf, recover_from_error]
    repeat' split
    all_goals intro hfate
    all_goals simp_all

/-- The resolution of the C2 counterexample: complete fields, file already
correctly named. -/
def c2Res : Resolution :=
  { finalAuthor := "Smith", finalYear := "2020", finalTitle := "Paper",
    noIdentifiers := false, metadataSource := "doi_crossref" }

/-- The C2 counterexample environment: everything succeeds and the
computed filename equals the file's current name. -/
def c2Env : PEnv :=
  { backupOk := true, moveBackupFailedOk := true, moveBackupFailedErr := "",
    body := Except.ok c2Res,
    moveNAOk := true, moveNAErr := "", samePath := true, renameOk := true,
    renameErr := "", recoveryOk := true, origFilename := "Smith - 2020 - Paper.pdf" }

/-- **C2 counterexample.**  A successfully processed file whose computed
name equals its current name stays at its original path with a successful
outcome — so the failed-recovery case is not the only way a file stays at
its original path in a non-dry run. -/
theorem C2_counterexample :
    (process_single_pdf false true id (fun _ => false) " -" 70 c2Env).fate =
      Fate.original ∧
    (process_single_pdf false true id (fun _ => false) " -" 70 c2Env).success = true := by
  exact ⟨by decide, by decide⟩

/-- The environment of the C2 witness: the body raises and the recovery
move also fails. -/
def c2ErrEnv : PEnv :=
  { backupOk := true, moveBackupFailedOk := true, moveBackupFailedErr := "",
    body := Except.error "boom",
    moveNAOk := true, moveNAErr := "", samePath := false, renameOk := true,
    renameErr := "", recoveryOk := false, origFilename := "x.pdf" }

/-- Witness for C2 (amended): a failing body with a failing recovery move
yields a failed outcome keeping the original error text and the original
path. -/
theorem C2_error_handling_witness :
    process_single_pdf false true id (fun _ => false) " -" 70 c2ErrEnv =
      { success := false,
        status := "✗ Error: boom (couldn\x27t move to needs-attention)",
        newFilename := "x.pdf", needsAttention := false, fate := Fate.original } :=
  ((C2_error_handling true id (fun _ => false) " -" 70 c2ErrEnv).1 "boom" rfl rfl).2 rfl

/-! ## The batch statistics of `process_directory` (lines 1037–1052) -/

/-- `self.stats` (lines 77–83). -/
structure RunStats where
  processed : Nat := 0
  successful : Nat := 0
  needs_attention : Nat := 0
  failed : Nat := 0
  skipped : Nat := 0
deriving DecidableEq

/-- Lines 1040–1052: classify one file's outcome and bump `processed`. -/
def update_stats (s : RunStats) (success na : Bool) : RunStats :=
  let s :=
    if success then
      if na then { s with needs_attention := s.needs_attention + 1 }
      else { s with successful := s.successful + 1 }
    else
      if na then { s with needs_attention := s.needs_attention + 1 }
      else { s with failed := s.failed + 1 }
  { s with processed := s.processed + 1 }

/-- The statistics after the batch loop has consumed the given per-file
outcomes, starting from the zero-initialized `self.stats`. -/
def process_directory_stats (outs : List POut) : RunStats :=
  outs.foldl (fun s o => update_stats s o.success o.needsAttention) {}

theorem update_stats_step (s : RunStats) (success na : Bool) :
    (update_stats s success na).processed = s.processed + 1 ∧
    (update_stats s success na).successful + (update_stats s success na).needs_attention +
        (update_stats s success na).failed =
      s.successful + s.needs_attention + s.failed + 1 ∧
    (update_stats s success na).skipped = s.skipped := by
  cases success <;> cases na <;> simp [update_stats] <;> omega

theorem stats_fold_invariant :
    ∀ (outs : List POut) (s : RunStats),
      s.processed = s.successful + s.needs_attention + s.failed → s.skipped = 0 →
      (outs.foldl (fun s o => update_stats s o.success o.needsAttention) s).processed =
          (outs.foldl (fun s o => update_stats s o.success o.needsAttention) s).successful +
          (outs.foldl (fun s o => update_stats s o.success o.needsAttention) s).needs_attention +
          (outs.foldl (fun s o => update_stats s o.success o.needsAttention) s).failed ∧
      (outs.foldl (fun s o => update_stats s o.success o.needsAttention) s).skipped = 0 := by
  intro outs
  induction outs with
  | nil => intro s h1 h2; exact ⟨h1, h2⟩
  | cons o rest ih =>
    intro s h1 h2
    simp only [List.foldl_cons]
    obtain ⟨hp, hsum, hsk⟩ := update_stats_step s o.success o.needsAttention
    exact ih _ (by omega) (by omega)

/-- **C10.**  Each loop iteration of `process_directory` increments exactly
one of `successful`/`needs_attention`/`failed` together with `processed`,
so `processed = successful + needs_attention + failed` holds after every
iteration (every prefix of the batch), and `skipped` stays `0` for the
whole run. -/
theorem C10_stats_invariant (outs : List POut) (n : Nat) :
    (∀ (s : RunStats) (success na : Bool),
      (update_stats s success na).processed = s.processed + 1 ∧
      (update_stats s success na).successful + (update_stats s success na).needs_attention +
          (update_stats s success na).failed =
        s.successful + s.needs_attention + s.failed + 1 ∧
      (update_stats s success na).skipped = s.skipped) ∧
    (process_directory_stats (outs.take n)).processed =
        (process_directory_stats (outs.take n)).successful +
        (process_directory_stats (outs.take n)).needs_attention +
        (process_directory_stats (outs.take n)).failed ∧
    (process_directory_stats (outs.take n)).skipped = 0 := by
  refine ⟨update_stats_step, ?_, ?_⟩
  · exact (stats_fold_invariant (outs.take n) {} rfl rfl).1
  · exact (stats_fold_invariant (outs.take n) {} rfl rfl).2

/-! ## `difflib.SequenceMatcher(None, a, b).ratio()` and the fuzzy
title-search acceptance of `query_semantic_scholar` (lines 464–518)

`SequenceMatcher` is Python standard-library code; it is translated here
from its source: `b2j` with the autojunk popular-entry filter, the
`find_longest_match` dynamic program with its four extension loops, the
recursive matching-block decomposition, and
`ratio = 2 * M / (len(a) + len(b))`.  Fuel parameters bound loop/recursion
depth and are instantiated with bounds that the loops can never exceed
(each iteration moves an index by at least one inside its interval). -/

/-- The positions of `c` in `b` (ascending) — one bucket of `b2j`. -/
def positionsOf (b : List Char) (c : Char) : List Nat :=
  ((b.enum).filter (fun p => p.2 == c)).map (fun p => p.1)

/-- The autojunk rule: for `len(b) >= 200`, entries occurring in more than
one percent of `b` are junk. -/
def bPopular (b : List Char) (c : Char) : Bool :=
  decide (200 ≤ b.length) && decide (b.length / 100 + 1 < (positionsOf b c).length)

/-- `b2j.get(c, [])` after junk elimination. -/
def b2jGet (b : List Char) (c : Char) : List Nat :=
  if bPopular b c then [] else positionsOf b c

/-- The inner `for j in b2j[a[i]]` loop of `find_longest_match`:
`continue` below `blo`, `break` at `bhi`, run-length bookkeeping in
`newj2len` (the accumulator), best-block update on strict improvement. -/
def flmScanJ (blo bhi : Nat) (j2len : List (Nat × Nat)) (i : Nat) :
    List Nat → List (Nat × Nat) → Nat × Nat × Nat → List (Nat × Nat) × (Nat × Nat × Nat)
  | [], acc, best => (acc, best)
  | j :: js, acc, best =>
    if j < blo then flmScanJ blo bhi j2len i js acc best
    else if bhi ≤ j then (acc, best)
    else
      let k := (if j = 0 then 0 else (List.lookup (j - 1) j2len).getD 0) + 1
      let best2 := if k > best.2.2 then (i + 1 - k, j + 1 - k, k) else best
      flmScanJ blo bhi j2len i js ((j, k) :: acc) best2

/-- The outer `for i in range(alo, ahi)` loop of `find_longest_match`;
the counter is `ahi - i`. -/
def flmOuter (a b : List Char) (blo bhi : Nat) :
    Nat → Nat → List (Nat × Nat) → Nat × Nat × Nat → Nat × Nat × Nat
  | 0, _, _, best => best
  | cnt + 1, i, j2len, best =>
    match a.get? i with
    | none => best
    | some c =>
      let r := flmScanJ blo bhi j2len i (b2jGet b c) [] best
      flmOuter a b blo bhi cnt (i + 1) r.1 r.2

/-- One of the two leftward extension `while` loops (non-junk when
`want = false`, junk when `want = true`). -/
def extendLeft (a b : List Char) (alo blo : Nat) (want : Bool) :
    Nat → Nat × Nat × Nat → Nat × Nat × Nat
  | 0, best => best
  | fuel + 1, (bi, bj, bs) =>
    if decide (alo < bi) && decide (blo < bj) &&
        (match b.get? (bj - 1), a.get? (bi - 1) with
         | some cb, some ca => (bPopular b cb == want) && (ca == cb)
         | _, _ => false) then
      extendLeft a b alo blo want fuel (bi - 1, bj - 1, bs + 1)
    else (bi, bj, bs)

/-- One of the two rightward extension `while` loops. -/
def extendRight (a b : List Char) (ahi bhi : Nat) (want : Bool) :
    Nat → Nat × Nat × Nat → Nat × Nat × Nat
  | 0, best => best
  | fuel + 1, (bi, bj, bs) =>
    if decide (bi + bs < ahi) && decide (bj + bs < bhi) &&
        (match b.get? (bj + bs), a.get? (bi + bs) with
         | some cb, some ca => (bPopular b cb == want) && (ca == cb)
         | _, _ => false) then
      extendRight a b ahi bhi want fuel (bi, bj, bs + 1)
    else (bi, bj, bs)

/-- `SequenceMatcher.find_longest_match(alo, ahi, blo, bhi)`. -/
def find_longest_match (a b : List Char) (alo ahi blo bhi : Nat) : Nat × Nat × Nat :=
  let fuel := a.length + b.length + 1
  let best := flmOuter a b blo bhi (ahi - alo) alo [] (alo, blo, 0)
  let best := extendLeft a b alo blo false fuel best
  let best := extendRight a b ahi bhi false fuel best
  let best := extendLeft a b alo blo true fuel best
  extendRight a b ahi bhi true fuel best

/-- The total matched length over the recursive matching-block
decomposition (what `get_matching_blocks` sums); each recursion step
shrinks the interval sum, so `|a| + |b| + 1` bounds the depth. -/
def matchTotalAux (a b : List Char) : Nat → Nat → Nat → Nat → Nat → Nat
  | 0, _, _, _, _ => 0
  | fuel + 1, alo, ahi, blo, bhi =>
    let m := find_longest_match a b alo ahi blo bhi
    if m.2.2 = 0 then 0
    else
      m.2.2 + matchTotalAux a b fuel alo m.1 blo m.2.1 +
        matchTotalAux a b fuel (m.1 + m.2.2) ahi (m.2.1 + m.2.2) bhi

/-- `M`: the number of matched characters. -/
def sm_total_matches (a b : List Char) : Nat :=
  matchTotalAux a b (a.length + b.length + 1) 0 a.length 0 b.length

/-- `SequenceMatcher.ratio() = 2.0 * M / T`, with `1.0` for two empty
sequences. -/
def sm_ratio (a b : List Char) : ℚ :=
  if a.length + b.length = 0 then 1
  else (2 * sm_total_matches a b : ℚ) / ((a.length : ℚ) + (b.length : ℚ))

/-- Python `str.lower()` at ASCII. -/
def pyLower (s : String) : List Char :=
  s.data.map Char.toLower

/-- The top entry of a Semantic Scholar title-search response
(its `.get('title', '')`). -/
structure S2Paper where
  title : String
deriving DecidableEq

/-- The title branch of `query_semantic_scholar` (lines 498–518): on a 200
response with a non-empty `data` array, compute
`SequenceMatcher(None, identifier.lower(), result['title'].lower()).ratio()`
and accept the top result only when `similarity >= FUZZY_MATCH_THRESHOLD`;
every other path returns (and caches) the empty record, modelled `none`. -/
def query_semantic_scholar_title (threshold : ℚ) (query : String)
    (resp : Option (List S2Paper)) : Option S2Paper :=
  match resp with
  | some (r :: _) =>
    if sm_ratio (pyLower query) (pyLower r.title) ≥ threshold then some r else none
  | _ => none

/-- The query of the C7 counterexample: seventeen `a`s then `xyz`. -/
def c7Query : String := "aaaaaaaaaaaaaaaaaxyz"

/-- The top-result title of the C7 counterexample: seventeen `a`s then
`uvw`; the ratio against `c7Query` is exactly `2·17/40 = 0.85`. -/
def c7Title : String := "aaaaaaaaaaaaaaaaauvw"

set_option maxRecDepth 100000 in
/-- **C7 counterexample.**  At similarity exactly equal to the default
threshold `0.85`, the adapter accepts the top result even though the
similarity does not exceed the threshold: the acceptance condition is
`>=`, not `>`. -/
theorem C7_counterexample :
    query_semantic_scholar_title (17 / 20 : ℚ) c7Query (some [⟨c7Title⟩]) =
      some ⟨c7Title⟩ ∧
    sm_ratio (pyLower c7Query) (pyLower c7Title) = 17 / 20 := by
  have hM : sm_total_matches (pyLower c7Query) (pyLower c7Title) = 17 := by decide
  have hla : (pyLower c7Query).length = 20 := by decide
  have hlb : (pyLower c7Title).length = 20 := by decide
  have hratio : sm_ratio (pyLower c7Query) (pyLower c7Title) = 17 / 20 := by
    rw [sm_ratio, if_neg (by rw [hla, hlb]; omega), hM, hla, hlb]
    norm_num
  refine ⟨?_, hratio⟩
  show (if sm_ratio (pyLower c7Query) (pyLower c7Title) ≥ 17 / 20 then
      some (⟨c7Title⟩ : S2Paper) else none) = some ⟨c7Title⟩
  rw [hratio, if_pos (le_refl _)]

/-- **C7 (amended).**  The title-search adapter accepts the top result
exactly when the similarity ratio is at or above the configured threshold;
whenever the top result's similarity is below the threshold it returns the
empty record, never a low-confidence guess. -/
theorem C7_title_threshold_amended (threshold : ℚ) (query : String)
    (resp : Option (List S2Paper)) :
    (∀ r, query_semantic_scholar_title threshold query resp = some r →
      (∃ rest, resp = some (r :: rest)) ∧
      sm_ratio (pyLower query) (pyLower r.title) ≥ threshold) ∧
    (∀ r rest, resp = some (r :: rest) →
      sm_ratio (pyLower query) (pyLower r.title) < threshold →
      query_semantic_scholar_title threshold query resp = none) := by
  constructor
  · intro r h
    match resp with
    | none => simp [query_semantic_scholar_title] at h
    | some [] => simp [query_semantic_scholar_title] at h
    | some (x :: rest) =>
      rw [query_semantic_scholar_title] at h
      by_cases hr : sm_ratio (pyLower query) (pyLower x.title) ≥ threshold
      · rw [if_pos hr] at h
        injection h with h
        subst h
        exact ⟨⟨rest, rfl⟩, hr⟩
      · rw [if_neg hr] at h
        cases h
  · intro r rest h hlt
    subst h
    rw [query_semantic_scholar_title]
    rw [if_neg (not_le.mpr hlt)]

set_option maxRecDepth 100000 in
/-- Witness for C7 (amended): a top result far below the threshold is
rejected. -/
theorem C7_title_threshold_amended_witness :
    query_semantic_scholar_title (17 / 20 : ℚ) "ab" (some [⟨"zz"⟩]) = none := by
  have hM : sm_total_matches (pyLower "ab") (pyLower "zz") = 0 := by decide
  have hla : (pyLower "ab").length = 2 := by decide
  have hlb : (pyLower "zz").length = 2 := by decide
  refine (C7_title_threshold_amended (17 / 20) "ab" (some [⟨"zz"⟩])).2 ⟨"zz"⟩ [] rfl ?_
  rw [sm_ratio, if_neg (by rw [hla, hlb]; omega), hM, hla, hlb]
  norm_num
